import Mathlib

/-!
Shallow embedding of the physalis interactive-viewport core (crates
cad-core, cad-geom, the picking/gizmo code of cad-web/wasm_app.rs and the
camera controller of cad-render/wasm.rs), together with proofs settling
the frozen claims about it.

Modelling conventions:
* `f32`/`f64` values are modelled as exact real numbers (`ℝ`).  Rounding
  is abstracted away; IEEE special values (NaN, infinities) do not exist
  in the model.  Where the code divides by zero the model yields `0`
  (Lean's division convention) instead of NaN/inf; each such place is
  noted at the definition it concerns.
* `u64`/`u32` values are modelled as `ℕ`; the single saturating addition
  in the source (`next_id.saturating_add(1)`) is rendered explicitly,
  index arithmetic on mesh indices cannot overflow in any scenario the
  claims quantify over.
* The truck B-rep kernel is external to this layer (`make_box`,
  `make_cylinder`, `tessellate_solid` call into it); a `Solid` is kept as
  an opaque marker and the tessellation result of an `add_box` /
  `add_cylinder` call is supplied as an input to the scene operation,
  exactly as the spec treats `tessellate` as an opaque collaborator.
* glam vector/quaternion/matrix operations used by the source are
  embedded by their scalar-math definitions (`normalize` is
  multiplication by the reciprocal length, `Quat::mul_vec3` is the
  `v*(w²-|b|²) + 2b(v·b) + 2w(b×v)` form, `Mat3::from_quat` is the
  standard entry formula, `Quat::from_rotation_axes` is the
  branch-on-largest-component form).
-/

noncomputable section

/-- 3-component vector of reals, modelling glam `Vec3` (f32 components
modelled exactly over ℝ). -/
structure Vec3 where
  x : ℝ
  y : ℝ
  z : ℝ

/-- The zero vector (`Vec3::ZERO`). -/
def Vec3.zero : Vec3 := ⟨0, 0, 0⟩

/-- Componentwise addition. -/
def Vec3.add (a b : Vec3) : Vec3 := ⟨a.x + b.x, a.y + b.y, a.z + b.z⟩

/-- Componentwise subtraction. -/
def Vec3.sub (a b : Vec3) : Vec3 := ⟨a.x - b.x, a.y - b.y, a.z - b.z⟩

/-- Componentwise negation. -/
def Vec3.neg (a : Vec3) : Vec3 := ⟨-a.x, -a.y, -a.z⟩

/-- Scalar multiplication. -/
def Vec3.smul (k : ℝ) (a : Vec3) : Vec3 := ⟨k * a.x, k * a.y, k * a.z⟩

/-- Dot product. -/
def Vec3.dot (a b : Vec3) : ℝ := a.x * b.x + a.y * b.y + a.z * b.z

/-- Cross product. -/
def Vec3.cross (a b : Vec3) : Vec3 :=
  ⟨a.y * b.z - a.z * b.y, a.z * b.x - a.x * b.z, a.x * b.y - a.y * b.x⟩

/-- Squared length (`length_squared`). -/
def Vec3.lengthSq (a : Vec3) : ℝ := a.dot a

/-- Length. -/
noncomputable def Vec3.length (a : Vec3) : ℝ := Real.sqrt a.lengthSq

/-- glam `Vec3::normalize`: multiplication by the reciprocal length.  For
the zero vector the code produces NaN components; the model yields the
zero vector (division by zero is zero in Lean). -/
noncomputable def Vec3.normalize (a : Vec3) : Vec3 := a.smul (1 / a.length)

/-- glam `Vec3::normalize_or_zero`: the reciprocal length is finite and
positive exactly when the vector is nonzero (over ℝ), in which case the
vector is normalized; otherwise the zero vector is returned. -/
noncomputable def Vec3.normalizeOrZero (a : Vec3) : Vec3 :=
  if a.lengthSq = 0 then Vec3.zero else a.smul (1 / a.length)

/-- Quaternion `(x, y, z, w)`, modelling glam `Quat` (f32 components
modelled exactly over ℝ). -/
structure Quat where
  x : ℝ
  y : ℝ
  z : ℝ
  w : ℝ

/-- The identity quaternion `[0, 0, 0, 1]`. -/
def Quat.one : Quat := ⟨0, 0, 0, 1⟩

/-- The vector (imaginary) part `xyz` of a quaternion. -/
def Quat.xyz (q : Quat) : Vec3 := ⟨q.x, q.y, q.z⟩

/-- Hamilton product (glam `Quat::mul`). -/
def Quat.mul (a b : Quat) : Quat :=
  ⟨a.w * b.x + b.w * a.x + (a.y * b.z - a.z * b.y),
   a.w * b.y + b.w * a.y + (a.z * b.x - a.x * b.z),
   a.w * b.z + b.w * a.z + (a.x * b.y - a.y * b.x),
   a.w * b.w - (a.x * b.x + a.y * b.y + a.z * b.z)⟩

/-- Squared length of a quaternion. -/
def Quat.lengthSq (q : Quat) : ℝ := q.x * q.x + q.y * q.y + q.z * q.z + q.w * q.w

/-- Length of a quaternion. -/
noncomputable def Quat.length (q : Quat) : ℝ := Real.sqrt q.lengthSq

/-- Scalar multiplication of a quaternion. -/
def Quat.smul (k : ℝ) (q : Quat) : Quat := ⟨k * q.x, k * q.y, k * q.z, k * q.w⟩

/-- glam `Quat::normalize`: multiplication by the reciprocal length.
There is NO fallback for degenerate input: the zero quaternion produces
NaN components in the code; in the model it stays the zero quaternion. -/
noncomputable def Quat.normalize (q : Quat) : Quat := q.smul (1 / q.length)

/-- glam `Quat::from_axis_angle` (the axis is expected normalized). -/
noncomputable def Quat.fromAxisAngle (axis : Vec3) (angle : ℝ) : Quat :=
  ⟨axis.x * Real.sin (angle / 2), axis.y * Real.sin (angle / 2),
   axis.z * Real.sin (angle / 2), Real.cos (angle / 2)⟩

/-- glam `Quat::mul_vec3` (the `Quat * Vec3` rotation action used by the
gizmo, picking and camera code):
`v*(w² - |b|²) + b*(2 v·b) + (b × v)*(2w)` with `b` the vector part. -/
def Quat.mulVec3 (q : Quat) (v : Vec3) : Vec3 :=
  let b := q.xyz
  let b2 := b.dot b
  ((v.smul (q.w * q.w - b2)).add ((b.smul (2 * v.dot b)).add
    ((b.cross v).smul (2 * q.w))))

/-- Rotation action of the glam `Mat3::from_quat` matrix (the standard
entry formula; this is the rotation block of the `Mat4` built by
`transform_mat`). -/
def Quat.matRotate (q : Quat) (v : Vec3) : Vec3 :=
  ⟨(1 - 2 * (q.y * q.y + q.z * q.z)) * v.x + 2 * (q.x * q.y - q.w * q.z) * v.y
      + 2 * (q.x * q.z + q.w * q.y) * v.z,
   2 * (q.x * q.y + q.w * q.z) * v.x + (1 - 2 * (q.x * q.x + q.z * q.z)) * v.y
      + 2 * (q.y * q.z - q.w * q.x) * v.z,
   2 * (q.x * q.z - q.w * q.y) * v.x + 2 * (q.y * q.z + q.w * q.x) * v.y
      + (1 - 2 * (q.x * q.x + q.y * q.y)) * v.z⟩

/-- `cad_core::Transform`: a translation and a quaternion `[x,y,z,w]`. -/
structure Transform where
  translation : Vec3
  rotation : Quat

/-- `Transform::default()`: identity translation and rotation. -/
def Transform.idT : Transform := ⟨Vec3.zero, Quat.one⟩

/-- The `Mat4` produced by `transform_mat` is always
`Mat4::from_translation(t) * Mat4::from_quat(q.normalize())`, i.e. a
rotation block from a quaternion followed by a translation; it is kept in
that factored form. -/
structure TRMat where
  rot : Quat
  tr : Vec3

/-- `cad_geom::transform_mat`: re-normalizes the stored quaternion and
pairs it with the translation. -/
noncomputable def transformMat (t : Transform) : TRMat :=
  ⟨t.rotation.normalize, t.translation⟩

/-- `Mat4::transform_point3` for a translation·rotation matrix. -/
def TRMat.transformPoint3 (m : TRMat) (p : Vec3) : Vec3 :=
  (m.rot.matRotate p).add m.tr

/-- `Mat4::transform_vector3` for a translation·rotation matrix: rotation
only. -/
def TRMat.transformVector3 (m : TRMat) (v : Vec3) : Vec3 :=
  m.rot.matRotate v

/-- `cad_geom::TriMesh`. -/
structure TriMesh where
  positions : List Vec3
  normals : List Vec3
  indices : List ℕ

/-- `TriMesh::default()`. -/
def TriMesh.empty : TriMesh := ⟨[], [], []⟩

/-- `TriMesh::append_transformed`: transforms the other mesh's positions
as points and normals as vectors (renormalizing each normal, with a
`[0,1,0]` fallback below the 1e-12 squared-length cutoff), and rebases
the appended indices by the running vertex offset. -/
noncomputable def TriMesh.appendTransformed (self other : TriMesh) (m : TRMat) : TriMesh :=
  let base := self.positions.length
  ⟨self.positions ++ other.positions.map m.transformPoint3,
   self.normals ++ other.normals.map (fun n =>
     let n2 := m.transformVector3 n
     if 1e-12 < n2.lengthSq then n2.normalize else ⟨0, 1, 0⟩),
   self.indices ++ other.indices.map (fun idx => idx + base)⟩

/-- `cad_geom::Aabb`. -/
structure Aabb where
  lo : Vec3
  hi : Vec3

/-- `Aabb::default()`. -/
def Aabb.default : Aabb := ⟨Vec3.zero, Vec3.zero⟩

/-- `cad_core::ObjectKind`. -/
inductive ObjectKind where
  | box (w h d : ℝ)
  | cylinder (r h : ℝ)

/-- `cad_core::ModelObject`. -/
structure ModelObject where
  id : ℕ
  kind : ObjectKind
  transform : Transform

/-- `cad_core::Model`: the object list and the next fresh id. -/
structure Model where
  objects : List ModelObject
  nextId : ℕ

/-- `Model::default()`. -/
def Model.empty : Model := ⟨[], 0⟩

/-- `Model::object`: first object with the given id. -/
def Model.objectFind (m : Model) (id : ℕ) : Option ModelObject :=
  m.objects.find? (fun o => o.id = id)

/-- Replace the transform of the first object carrying `id`
(`objects.iter_mut().find(..)`); `none` when no object carries it. -/
def setFirstTransform (id : ℕ) (t : Transform) :
    List ModelObject → Option (List ModelObject)
  | [] => none
  | o :: rest =>
    if o.id = id then some ({ o with transform := t } :: rest)
    else (setFirstTransform id t rest).map (fun l => o :: l)

/-- `Model::set_transform`: true and the updated model when the id is
present, false and the unchanged model otherwise. -/
def Model.setTransform (m : Model) (id : ℕ) (t : Transform) : Bool × Model :=
  match setFirstTransform id t m.objects with
  | some objs => (true, { m with objects := objs })
  | none => (false, m)

/-- `Model::add_object`: appends an object with a fresh id and identity
transform; the id counter saturates at `u64::MAX`. -/
def Model.addObject (m : Model) (kind : ObjectKind) : ℕ × Model :=
  let id := m.nextId
  (id, ⟨m.objects ++ [⟨id, kind, Transform.idT⟩], min (m.nextId + 1) (2 ^ 64 - 1)⟩)

/-- Opaque marker for a truck `Solid` (external B-rep kernel data that
this layer stores but never inspects). -/
inductive Solid where
  | mk

/-- `cad_geom::GeomError`. -/
inductive GeomError where
  | emptyScene
  | notImplemented

/-- `cad_geom::SurfaceHit`. -/
structure SurfaceHit where
  objectId : ℕ
  point : Vec3
  normal : Vec3
  distance : ℝ

/-- `cad_geom::GeomScene`: model data, per-object caches, combined-mesh
cache and tessellation tolerance. -/
structure GeomScene where
  model : Model
  solids : List Solid
  localMeshes : List TriMesh
  boundsRadius : List ℝ
  localAabbs : List Aabb
  meshCache : Option TriMesh
  tolerance : ℝ

/-- `GeomScene::new`. -/
def GeomScene.new : GeomScene :=
  ⟨Model.empty, [], [], [], [], none, 1 / 100⟩

/-- `mesh_bounds_radius`: maximum distance from the local origin to any
vertex (a fold of `f32::max` starting at `0.0`). -/
noncomputable def meshBoundsRadius (mesh : TriMesh) : ℝ :=
  (mesh.positions.map Vec3.length).foldl max 0

/-- `mesh_bounds_aabb`: componentwise min/max corners.  The source folds
from `±∞` and falls back to the default box when the result is not
finite, which happens exactly for an empty vertex list; the model renders
that as an explicit emptiness test. -/
def meshBoundsAabb (mesh : TriMesh) : Aabb :=
  match mesh.positions with
  | [] => Aabb.default
  | p :: rest =>
    ⟨rest.foldl (fun acc q => ⟨min acc.x q.x, min acc.y q.y, min acc.z q.z⟩) p,
     rest.foldl (fun acc q => ⟨max acc.x q.x, max acc.y q.y, max acc.z q.z⟩) p⟩

/-- `GeomScene::object_transform`. -/
def GeomScene.objectTransform (s : GeomScene) (id : ℕ) : Option Transform :=
  (s.model.objectFind id).map (fun o => o.transform)

/-- `GeomScene::bounds_radius`: position of the id in the object list,
then the cached radius at that index. -/
def GeomScene.boundsRadiusOf (s : GeomScene) (id : ℕ) : Option ℝ :=
  (s.model.objects.findIdx? (fun o => o.id = id)).bind
    (fun idx => s.boundsRadius.get? idx)

/-- `GeomScene::local_aabb`. -/
def GeomScene.localAabbOf (s : GeomScene) (id : ℕ) : Option Aabb :=
  (s.model.objects.findIdx? (fun o => o.id = id)).bind
    (fun idx => s.localAabbs.get? idx)

/-- `GeomScene::set_object_transform`: delegates to
`Model::set_transform` and invalidates the combined-mesh cache on
success. -/
def GeomScene.setObjectTransform (s : GeomScene) (id : ℕ) (t : Transform) :
    Bool × GeomScene :=
  match s.model.setTransform id t with
  | (true, m) => (true, { s with model := m, meshCache := none })
  | (false, _) => (false, s)

/-- Common body of `GeomScene::add_box` / `add_cylinder`.  The truck
solid construction and tessellation are external; `tess` is the
tessellated local mesh those collaborators return.  Appends the object,
the solid, the local mesh and its two derived summaries, and invalidates
the combined-mesh cache. -/
noncomputable def GeomScene.addObject (s : GeomScene) (kind : ObjectKind)
    (tess : TriMesh) : ℕ × GeomScene :=
  let idm := s.model.addObject kind
  (idm.1,
   { model := idm.2,
     solids := s.solids ++ [Solid.mk],
     localMeshes := s.localMeshes ++ [tess],
     boundsRadius := s.boundsRadius ++ [meshBoundsRadius tess],
     localAabbs := s.localAabbs ++ [meshBoundsAabb tess],
     meshCache := none,
     tolerance := s.tolerance })

/-- The combined mesh built by `GeomScene::mesh` on a cache miss: every
object's local mesh, transformed by `transform_mat` of its current
transform, appended in object order (objects whose index has no local
mesh are skipped). -/
noncomputable def GeomScene.combineAll (s : GeomScene) : TriMesh :=
  s.model.objects.enum.foldl (fun combined io =>
    match s.localMeshes.get? io.1 with
    | some mloc => combined.appendTransformed mloc (transformMat io.2.transform)
    | none => combined) TriMesh.empty

/-- `GeomScene::mesh` (`&mut self`): fails with `EmptyScene` when there
are no solids, otherwise serves the cache, rebuilding and storing it
first when invalidated.  Rendered as a state-passing function. -/
noncomputable def GeomScene.meshR (s : GeomScene) :
    Except GeomError TriMesh × GeomScene :=
  if s.solids.isEmpty then (Except.error GeomError.emptyScene, s)
  else
    match s.meshCache with
    | some m => (Except.ok m, s)
    | none =>
      let combined := s.combineAll
      (Except.ok combined, { s with meshCache := some combined })

/-- Split an index list into consecutive triples (`chunks_exact(3)`; a
trailing remainder of fewer than three indices is dropped). -/
def triChunks : List ℕ → List (ℕ × ℕ × ℕ)
  | a :: b :: c :: rest => (a, b, c) :: triChunks rest
  | _ => []

/-- `cad_geom::ray_triangle_intersect` (Möller–Trumbore): rejects a
near-parallel ray (`|det| < 1e-6`), barycentric `u` outside `[0,1]`,
`v < 0` or `u + v > 1`, and a hit parameter at or below `1e-6`. -/
def rayTriangleIntersect (rayO rayD v0 v1 v2 : Vec3) : Option ℝ :=
  let eps : ℝ := 1e-6
  let e1 := v1.sub v0
  let e2 := v2.sub v0
  let pvec := rayD.cross e2
  let det := e1.dot pvec
  if |det| < eps then none
  else
    let invDet := 1 / det
    let tvec := rayO.sub v0
    let u := tvec.dot pvec * invDet
    if u < 0 ∨ 1 < u then none
    else
      let qvec := tvec.cross e1
      let v := rayD.dot qvec * invDet
      if v < 0 ∨ 1 < u + v then none
      else
        let t := e2.dot qvec * invDet
        if eps < t then some t else none

/-- One iteration of the inner `pick_surface` loop for a single index
triple: fetch the three vertices (skipping the triangle when an index is
out of range), transform them to world space, intersect, and on a hit
build the candidate `SurfaceHit` with the averaged re-rotated vertex
normal (or the geometric face normal when a vertex normal is missing). -/
def triCandidate (rayO rayD : Vec3) (m : TRMat) (rotation : Quat)
    (mesh : TriMesh) (objId : ℕ) (tri : ℕ × ℕ × ℕ) : Option SurfaceHit :=
  match mesh.positions.get? tri.1, mesh.positions.get? tri.2.1,
      mesh.positions.get? tri.2.2 with
  | some q0, some q1, some q2 =>
    let p0 := m.transformPoint3 q0
    let p1 := m.transformPoint3 q1
    let p2 := m.transformPoint3 q2
    match rayTriangleIntersect rayO rayD p0 p1 p2 with
    | some t =>
      let n :=
        match mesh.normals.get? tri.1, mesh.normals.get? tri.2.1,
            mesh.normals.get? tri.2.2 with
        | some n0, some n1, some n2 =>
          (rotation.mulVec3 (Vec3.smul (1 / 3) ((n0.add n1).add n2))).normalizeOrZero
        | _, _, _ => ((p1.sub p0).cross (p2.sub p0)).normalizeOrZero
      some ⟨objId, rayO.add (rayD.smul t), n, t⟩
    | none => none
  | _, _, _ => none

/-- Keep the nearer of the current best hit and a new candidate (the
source keeps the current best on `t >= best_t`, so ties keep the earlier
hit; the initial `best_t = f32::INFINITY` is rendered by the `none`
accumulator, every real candidate distance being below infinity). -/
def pickStep (best : Option SurfaceHit) (h : SurfaceHit) : Option SurfaceHit :=
  match best with
  | none => some h
  | some b => if h.distance < b.distance then some h else some b

/-- `GeomScene::pick_surface`: normalize the ray direction (zero for a
degenerate input, in which case no hit is reported), then scan every
triangle of every object's local mesh in order, keeping the closest
positive-distance hit. -/
def GeomScene.pickSurface (s : GeomScene) (rayOrigin rayDir : Vec3) :
    Option SurfaceHit :=
  let rayD := rayDir.normalizeOrZero
  if rayD.lengthSq < 1e-12 then none
  else
    s.model.objects.enum.foldl (fun best io =>
      match s.localMeshes.get? io.1 with
      | none => best
      | some mesh =>
        let m := transformMat io.2.transform
        let rotation := io.2.transform.rotation.normalize
        (triChunks mesh.indices).foldl (fun b tri =>
          match triCandidate rayOrigin rayD m rotation mesh io.2.id tri with
          | none => b
          | some h => pickStep b h) best) none

/-- `cad_web::ray_sphere_intersect`: quadratic test written for a unit
direction; reports the near root when it is positive. -/
def raySphereIntersect (rayO rayD center : Vec3) (radius : ℝ) : Option ℝ :=
  let oc := rayO.sub center
  let b := oc.dot rayD
  let c := oc.dot oc - radius * radius
  let disc := b * b - c
  if disc < 0 then none
  else
    let t := -b - Real.sqrt disc
    if 0 < t then some t else none

/-- `cad_web::pick_object`: broad-phase scan of every object's bounding
sphere, centered at the object's world translation with radius
`bounds_radius(id).unwrap_or(0.5).max(0.05)`; the ray direction is used
exactly as passed in (no internal normalization).  Reports the id with
the smallest positive intersection distance. -/
def pickObject (s : GeomScene) (rayO rayD : Vec3) : Option ℕ :=
  (s.model.objects.foldl (fun best obj =>
    let center := obj.transform.translation
    let radius := max ((s.boundsRadiusOf obj.id).getD (1 / 2)) (1 / 20)
    match raySphereIntersect rayO rayD center radius with
    | none => best
    | some t =>
      match best with
      | none => some (obj.id, t)
      | some p => if t < p.2 then some (obj.id, t) else some p) none).map
    Prod.fst

/-- `cad_web::DragMode`. -/
inductive Axis where
  | x
  | y
  | z

/-- Drag interaction mode of an active gizmo session. -/
inductive DragMode where
  | translate
  | rotate (axis : Axis)

/-- `cad_web::DragState`: the ephemeral drag session captured on gizmo
hit. -/
structure DragState where
  objectId : ℕ
  mode : DragMode
  startTransform : Transform
  startOriginWorld : Vec3
  axisDirWorld : Vec3
  planeNormalWorld : Vec3
  startAxisT : ℝ
  ringUWorld : Vec3
  ringVWorld : Vec3
  startAngle : ℝ

/-- `cad_web::quat_from_transform`: the stored quaternion,
re-normalized.  No fallback for degenerate input (glam `normalize`). -/
def quatFromTransform (t : Transform) : Quat := t.rotation.normalize

/-- Two-argument arctangent, the mathematical function `f32::atan2`
rounds: the argument of the complex number `x + y·i`, with value in
`(-π, π]` and `atan2 0 0 = 0`. -/
def atan2 (y x : ℝ) : ℝ := Complex.arg ⟨x, y⟩

/-- The one-step branch-cut unwrap used by `drag_rotate`: subtract a full
turn when the raw delta exceeds `π`, add one when it is below `-π`. -/
def wrapPi (delta : ℝ) : ℝ :=
  if Real.pi < delta then delta - 2 * Real.pi
  else if delta < -Real.pi then delta + 2 * Real.pi
  else delta

/-- The unit vector of a local axis. -/
def axisLocalVec : Axis → Vec3
  | Axis.x => ⟨1, 0, 0⟩
  | Axis.y => ⟨0, 1, 0⟩
  | Axis.z => ⟨0, 0, 1⟩

/-- `cad_web::drag_translate`: skip the frame when the ray is
near-parallel to the drag plane (`|denom| < 1e-6`); otherwise intersect
the ray with the plane through the start anchor, project onto the drag
axis, and offset the translation captured at drag start by the axis
direction times the scalar delta. -/
def dragTranslate (ds : DragState) (rayO rayD : Vec3) : Option Transform :=
  let denom := ds.planeNormalWorld.dot rayD
  if |denom| < 1e-6 then none
  else
    let t := ds.planeNormalWorld.dot (ds.startOriginWorld.sub rayO) / denom
    let p := rayO.add (rayD.smul t)
    let axisT := ds.axisDirWorld.dot (p.sub ds.startOriginWorld)
    let delta := axisT - ds.startAxisT
    some { ds.startTransform with
           translation := ds.startTransform.translation.add
             (ds.axisDirWorld.smul delta) }

/-- The angular delta computed by `drag_rotate`: intersect the ray with
the ring plane (skipping near-parallel rays and intersections at or
behind the origin), take the `atan2` angle of the intersection direction
in the ring's `(u, v)` basis, and unwrap the difference from the start
angle across the branch cut. -/
def dragRotateDelta (ds : DragState) (rayO rayD : Vec3) : Option ℝ :=
  let n := ds.planeNormalWorld
  let denom := n.dot rayD
  if |denom| < 1e-6 then none
  else
    let t := n.dot (ds.startOriginWorld.sub rayO) / denom
    if t ≤ 0 then none
    else
      let p := rayO.add (rayD.smul t)
      let vdir := (p.sub ds.startOriginWorld).normalizeOrZero
      let angle := atan2 (vdir.dot ds.ringVWorld) (vdir.dot ds.ringUWorld)
      some (wrapPi (angle - ds.startAngle))

/-- `cad_web::drag_rotate`: the unwrapped delta is applied as a rotation
about the chosen local axis, right-multiplied (object-local composition)
onto the re-normalized rotation captured at drag start; the translation
captured at drag start is returned unchanged. -/
def dragRotate (ds : DragState) (axis : Axis) (rayO rayD : Vec3) :
    Option Transform :=
  match dragRotateDelta ds rayO rayD with
  | none => none
  | some delta =>
    let startQ := quatFromTransform ds.startTransform
    let qLocal := Quat.fromAxisAngle (axisLocalVec axis) delta
    let q := (startQ.mul qLocal).normalize
    some { ds.startTransform with rotation := q }

/-- `cad_render` camera state. -/
structure Camera where
  target : Vec3
  radius : ℝ
  rotation : Quat
  fovY : ℝ
  aspect : ℝ
  near : ℝ
  far : ℝ

/-- `cad_render::arcball_vector`: map a screen point to the virtual unit
sphere (upper hemisphere inside the unit circle, equator outside). -/
def arcballVector (x y width height : ℝ) : Vec3 :=
  let nx := (2 * x - width) / width
  let ny := (height - 2 * y) / height
  let len2 := nx * nx + ny * ny
  if len2 ≤ 1 then ⟨nx, ny, Real.sqrt (1 - len2)⟩
  else
    let norm := Real.sqrt len2
    ⟨nx / norm, ny / norm, 0⟩

/-- The orthonormal frame built inside `Camera::constrain_up`: the view
back-vector, a horizontal right-vector rebuilt from world-up (falling
back to the camera's own right axis when world-up and back are
near-collinear), the re-derived up-vector, and the below-horizon flip. -/
def constrainBasis (rotation : Quat) : Vec3 × Vec3 × Vec3 :=
  let back := (rotation.mulVec3 ⟨0, 0, 1⟩).normalize
  let worldUp : Vec3 := ⟨0, 1, 0⟩
  let right0 := worldUp.cross back
  let right :=
    if right0.lengthSq < 1e-6 then (rotation.mulVec3 ⟨1, 0, 0⟩).normalize
    else right0.normalize
  let up := (back.cross right).normalize
  if up.dot worldUp < 0 then (right.neg, up.neg, back) else (right, up, back)

/-- glam `Quat::from_mat3` / `from_rotation_axes` (branch on the largest
quaternion component, DirectXMath style), applied to the three columns
of the constrained basis. -/
def quatFromMat3 (xAxis yAxis zAxis : Vec3) : Quat :=
  let m00 := xAxis.x
  let m01 := xAxis.y
  let m02 := xAxis.z
  let m10 := yAxis.x
  let m11 := yAxis.y
  let m12 := yAxis.z
  let m20 := zAxis.x
  let m21 := zAxis.y
  let m22 := zAxis.z
  if m22 ≤ 0 then
    let dif10 := m11 - m00
    let omm22 := 1 - m22
    if dif10 ≤ 0 then
      let fourXsq := omm22 - dif10
      let inv4x := (1 / 2) / Real.sqrt fourXsq
      ⟨fourXsq * inv4x, (m01 + m10) * inv4x, (m02 + m20) * inv4x,
       (m12 - m21) * inv4x⟩
    else
      let fourYsq := omm22 + dif10
      let inv4y := (1 / 2) / Real.sqrt fourYsq
      ⟨(m01 + m10) * inv4y, fourYsq * inv4y, (m12 + m21) * inv4y,
       (m20 - m02) * inv4y⟩
  else
    let sum10 := m11 + m00
    let opm22 := 1 + m22
    if sum10 ≤ 0 then
      let fourZsq := opm22 - sum10
      let inv4z := (1 / 2) / Real.sqrt fourZsq
      ⟨(m02 + m20) * inv4z, (m12 + m21) * inv4z, fourZsq * inv4z,
       (m01 - m10) * inv4z⟩
    else
      let fourWsq := opm22 + sum10
      let inv4w := (1 / 2) / Real.sqrt fourWsq
      ⟨(m12 - m21) * inv4w, (m20 - m02) * inv4w, (m01 - m10) * inv4w,
       fourWsq * inv4w⟩

/-- `Camera::constrain_up`: rebuild the orientation quaternion from the
constrained basis. -/
def constrainUp (rotation : Quat) : Quat :=
  let rub := constrainBasis rotation
  (quatFromMat3 rub.1 rub.2.1 rub.2.2).normalize

/-- `Camera::orbit_arcball`: map both screen points to arcball vectors,
rotate by the (inverted) shortest arc between them, ignoring degenerate
motions with a near-zero axis, then re-orthogonalize via
`constrain_up`. -/
def Camera.orbitArcball (cam : Camera) (prevX prevY currX currY : ℝ)
    (width height : ℕ) : Camera :=
  let w : ℝ := (max width 1 : ℕ)
  let h : ℝ := (max height 1 : ℕ)
  let v0 := arcballVector prevX prevY w h
  let v1 := arcballVector currX currY w h
  let axis := v1.cross v0
  let axisLen := axis.length
  if axisLen < 1e-5 then cam
  else
    let d := min 1 (max (-1) (v0.dot v1))
    let angle := Real.arccos d
    let q := Quat.fromAxisAngle (axis.smul (1 / axisLen)) angle
    { cam with rotation := constrainUp ((q.mul cam.rotation).normalize) }

/-- The scene operations the spec's sequencing claims quantify over:
`add_box` / `add_cylinder` (with the external tessellation result as an
input) and `set_transform`. -/
inductive SceneOp where
  | addBox (w h d : ℝ) (tess : TriMesh)
  | addCylinder (r h : ℝ) (tess : TriMesh)
  | setT (id : ℕ) (t : Transform)

/-- Apply one scene operation (discarding the returned id / bool). -/
def SceneOp.apply (s : GeomScene) : SceneOp → GeomScene
  | SceneOp.addBox w h d tess => (s.addObject (ObjectKind.box w h d) tess).2
  | SceneOp.addCylinder r h tess =>
    (s.addObject (ObjectKind.cylinder r h) tess).2
  | SceneOp.setT id t => (s.setObjectTransform id t).2

/-- Run a sequence of scene operations from the fresh scene. -/
def applyOps (ops : List SceneOp) : GeomScene :=
  ops.foldl SceneOp.apply GeomScene.new

/-- The list of all per-triangle candidate hits scanned by
`pick_surface`, in traversal order (objects in list order, triangles in
index order); `pick_surface` returns the hit of this list with the
smallest distance.  `rayD` is the already-normalized direction. -/
def allSurfaceHits (s : GeomScene) (rayOrigin rayD : Vec3) :
    List SurfaceHit :=
  (s.model.objects.enum.map (fun io =>
    match s.localMeshes.get? io.1 with
    | none => []
    | some mesh =>
      (triChunks mesh.indices).filterMap
        (triCandidate rayOrigin rayD (transformMat io.2.transform)
          (io.2.transform.rotation.normalize) mesh io.2.id))).flatten

/-- The list of `(id, distance)` bounding-sphere hits scanned by
`pick_object`, in object order; `pick_object` returns the id of the pair
with the smallest distance. -/
def sphereHits (s : GeomScene) (rayO rayD : Vec3) : List (ℕ × ℝ) :=
  s.model.objects.filterMap (fun obj =>
    (raySphereIntersect rayO rayD obj.transform.translation
      (max ((s.boundsRadiusOf obj.id).getD (1 / 2)) (1 / 20))).map
      (fun t => (obj.id, t)))

/-- Proof-side abstraction of the closest-hit accumulator shared by
`pick_surface` and `pick_object`: keep the candidate with the smaller
measure, preferring the earlier one on ties. -/
def foldStepBy {α : Type} (dist : α → ℝ) (b : Option α) (h : α) : Option α :=
  match b with
  | none => some h
  | some b0 => if dist h < dist b0 then some h else some b0

/-! ### Concrete fixtures used by witnesses and counterexamples -/

/-- A translate-drag session anchored at the origin with the world X axis
as drag axis and the XY plane as drag plane. -/
def dsTranslateFix : DragState :=
  ⟨0, DragMode.translate, Transform.idT, Vec3.zero, ⟨1, 0, 0⟩, ⟨0, 0, 1⟩, 0,
   Vec3.zero, Vec3.zero, 0⟩

/-- A rotate-drag session about the local X axis whose ring lies in the
world XY plane, with start angle `0`. -/
def dsRotateFix : DragState :=
  ⟨0, DragMode.rotate Axis.x, Transform.idT, Vec3.zero, ⟨1, 0, 0⟩, ⟨0, 0, 1⟩,
   0, ⟨1, 0, 0⟩, ⟨0, 1, 0⟩, 0⟩

/-- The same ring session but captured with start angle exactly `π` (the
value `atan2` returns for a hit in the `-u` direction). -/
def dsRotatePiFix : DragState :=
  ⟨0, DragMode.rotate Axis.x, Transform.idT, Vec3.zero, ⟨1, 0, 0⟩, ⟨0, 0, 1⟩,
   0, ⟨1, 0, 0⟩, ⟨0, 1, 0⟩, Real.pi⟩

/-- A camera fixture with identity orientation. -/
def camFix : Camera := ⟨Vec3.zero, 4, Quat.one, 1, 1, 1 / 100, 1000⟩

/-- Rational cosine of the near-vertical counterexample configuration:
`axC9² + ayC9² = 1` exactly. -/
def axC9 : ℝ := 15999999 / 16000001

/-- Rational sine of the near-vertical counterexample configuration
(small enough that `ayC9² < 1e-6`). -/
def ayC9 : ℝ := 8000 / 16000001

/-- The orbit rotation produced by dragging from the screen center to the
rim point `(-ayC9, axC9)`: a quarter turn about the horizontal axis
`(axC9, ayC9, 0)`. -/
noncomputable def qC9 : Quat :=
  ⟨axC9 * (Real.sqrt 2 / 2), ayC9 * (Real.sqrt 2 / 2), 0, Real.sqrt 2 / 2⟩

/-- A one-vertex local mesh whose bounding radius is exactly `1`. -/
def meshPointUnit : TriMesh := ⟨[⟨1, 0, 0⟩], [], []⟩

/-- A one-vertex local mesh whose bounding radius is exactly `1/100`. -/
def meshPointTiny : TriMesh := ⟨[⟨1 / 100, 0, 0⟩], [], []⟩

/-- A one-triangle local mesh in the XY plane with +Z normals. -/
def meshTriFix : TriMesh :=
  ⟨[⟨0, 0, 0⟩, ⟨1, 0, 0⟩, ⟨0, 1, 0⟩], [⟨0, 0, 1⟩, ⟨0, 0, 1⟩, ⟨0, 0, 1⟩],
   [0, 1, 2]⟩

/-- One object carrying the single-triangle mesh, at the identity
transform. -/
def sceneTri : GeomScene :=
  (GeomScene.new.addObject (ObjectKind.box 1 1 1) meshTriFix).2

/-- One box object of bounding radius `1`, moved to `(0,0,-5)`. -/
def sceneOneSphere : GeomScene :=
  ((GeomScene.new.addObject (ObjectKind.box 1 1 1) meshPointUnit).2.setObjectTransform
    0 ⟨⟨0, 0, -5⟩, Quat.one⟩).2

/-- One box object of bounding radius `1/100`, moved to `(0,0,-5)`. -/
def sceneTinySphere : GeomScene :=
  ((GeomScene.new.addObject (ObjectKind.box 1 1 1) meshPointTiny).2.setObjectTransform
    0 ⟨⟨0, 0, -5⟩, Quat.one⟩).2

/-! ### Helper lemmas about the embedded vector algebra -/

theorem Vec3.lengthSq_nonneg (a : Vec3) : 0 ≤ a.lengthSq := by
  unfold Vec3.lengthSq Vec3.dot
  nlinarith [sq_nonneg a.x, sq_nonneg a.y, sq_nonneg a.z]

theorem Vec3.length_nonneg (a : Vec3) : 0 ≤ a.length := Real.sqrt_nonneg _

theorem Vec3.lengthSq_smul (k : ℝ) (a : Vec3) :
    (a.smul k).lengthSq = k ^ 2 * a.lengthSq := by
  unfold Vec3.lengthSq Vec3.dot Vec3.smul
  ring

theorem Vec3.length_smul (k : ℝ) (a : Vec3) (hk : 0 ≤ k) :
    (a.smul k).length = k * a.length := by
  unfold Vec3.length
  rw [Vec3.lengthSq_smul, Real.sqrt_mul (by positivity), Real.sqrt_sq hk]

theorem Vec3.normalizeOrZero_smul (k : ℝ) (a : Vec3) (hk : 0 < k) :
    (a.smul k).normalizeOrZero = a.normalizeOrZero := by
  unfold Vec3.normalizeOrZero
  rcases eq_or_ne a.lengthSq 0 with h | h
  · rw [if_pos (by rw [Vec3.lengthSq_smul, h, mul_zero]), if_pos h]
  · have hne : (a.smul k).lengthSq ≠ 0 := by
      rw [Vec3.lengthSq_smul]
      exact mul_ne_zero (pow_ne_zero 2 hk.ne') h
    rw [if_neg hne, if_neg h]
    rw [Vec3.length_smul k a hk.le]
    rcases eq_or_ne a.length 0 with hL | hL
    · cases a with
      | mk ax ay az =>
        unfold Vec3.smul
        simp [hL]
    · cases a with
      | mk ax ay az =>
        unfold Vec3.smul
        simp only [Vec3.mk.injEq]
        field_simp
        exact ⟨by ring, by ring, by ring⟩

theorem Quat.lengthSq_nonneg_q (q : Quat) : 0 ≤ q.lengthSq := by
  unfold Quat.lengthSq
  nlinarith [sq_nonneg q.x, sq_nonneg q.y, sq_nonneg q.z, sq_nonneg q.w]

theorem Quat.lengthSq_smul_q (k : ℝ) (q : Quat) :
    (q.smul k).lengthSq = k ^ 2 * q.lengthSq := by
  unfold Quat.lengthSq Quat.smul
  ring

theorem Quat.length_smul_q (k : ℝ) (q : Quat) (hk : 0 ≤ k) :
    (q.smul k).length = k * q.length := by
  unfold Quat.length
  rw [Quat.lengthSq_smul_q, Real.sqrt_mul (by positivity), Real.sqrt_sq hk]

theorem Quat.length_pos (q : Quat) (h : q.lengthSq ≠ 0) : 0 < q.length := by
  unfold Quat.length
  exact Real.sqrt_pos.2 (lt_of_le_of_ne (Quat.lengthSq_nonneg_q q) (Ne.symm h))

theorem Quat.normalize_smul (k : ℝ) (q : Quat) (hk : 0 < k) :
    (q.smul k).normalize = q.normalize := by
  unfold Quat.normalize
  rw [Quat.length_smul_q k q hk.le]
  rcases eq_or_ne q.length 0 with hL | hL
  · cases q with
    | mk qx qy qz qw =>
      unfold Quat.smul
      simp [hL]
  · cases q with
    | mk qx qy qz qw =>
      unfold Quat.smul
      simp only [Quat.mk.injEq]
      field_simp
      exact ⟨by ring, by ring, by ring, by ring⟩

theorem Quat.lengthSq_normalize (q : Quat) (h : q.lengthSq ≠ 0) :
    q.normalize.lengthSq = 1 := by
  unfold Quat.normalize
  rw [Quat.lengthSq_smul_q]
  have hpos : 0 < q.length := Quat.length_pos q h
  have hsq : q.length ^ 2 = q.lengthSq := Real.sq_sqrt (Quat.lengthSq_nonneg_q q)
  rw [one_div, inv_pow, hsq]
  field_simp [h]

theorem Vec3.smul_cross_self (k : ℝ) (a : Vec3) :
    (a.smul k).cross a = Vec3.zero := by
  unfold Vec3.smul Vec3.cross Vec3.zero
  simp only [Vec3.mk.injEq]
  exact ⟨by ring, by ring, by ring⟩

theorem atan2_zero_one : atan2 0 1 = 0 := by
  unfold atan2
  have h : (⟨1, 0⟩ : ℂ) = 1 := by
    apply Complex.ext <;> simp
  rw [h, Complex.arg_one]

theorem wrapPi_of_mem (d : ℝ) (h1 : d ≤ Real.pi) (h2 : -Real.pi ≤ d) :
    wrapPi d = d := by
  unfold wrapPi
  rw [if_neg (not_lt.2 h1), if_neg (not_lt.2 h2)]

theorem Quat.normalize_one : Quat.one.normalize = Quat.one := by
  unfold Quat.normalize Quat.length Quat.lengthSq Quat.one Quat.smul
  norm_num

theorem Quat.fromAxisAngle_zeroAngle (axis : Vec3) :
    Quat.fromAxisAngle axis 0 = ⟨0, 0, 0, 1⟩ := by
  unfold Quat.fromAxisAngle
  norm_num

theorem Quat.one_mul_q (q : Quat) : Quat.one.mul q = q := by
  cases q with
  | mk qx qy qz qw =>
    unfold Quat.mul Quat.one
    simp only [Quat.mk.injEq]
    exact ⟨by ring, by ring, by ring, by ring⟩

/-- Claim C3: for every active translate-drag session, when the magnitude
of the dot product of the drag-plane normal with the ray direction is
below `1e-6`, `drag_translate` returns `None` (the frame's update is
skipped); otherwise it returns the start transform with its translation
replaced by the start translation plus the axis direction times (the
newly projected axis scalar minus the scalar captured at drag start), so
the translation offset is exactly collinear with the axis direction (the
cross product with the axis, i.e. the perpendicular component, is
zero). -/
theorem claim_C3 (ds : DragState) (rayO rayD : Vec3) :
    (|ds.planeNormalWorld.dot rayD| < 1e-6 →
      dragTranslate ds rayO rayD = none) ∧
    (1e-6 ≤ |ds.planeNormalWorld.dot rayD| →
      dragTranslate ds rayO rayD = some
        { ds.startTransform with
          translation := ds.startTransform.translation.add
            (ds.axisDirWorld.smul
              (ds.axisDirWorld.dot
                ((rayO.add (rayD.smul
                  (ds.planeNormalWorld.dot (ds.startOriginWorld.sub rayO) /
                    ds.planeNormalWorld.dot rayD))).sub ds.startOriginWorld) -
                ds.startAxisT)) } ∧
      (ds.axisDirWorld.smul
        (ds.axisDirWorld.dot
          ((rayO.add (rayD.smul
            (ds.planeNormalWorld.dot (ds.startOriginWorld.sub rayO) /
              ds.planeNormalWorld.dot rayD))).sub ds.startOriginWorld) -
          ds.startAxisT)).cross ds.axisDirWorld = Vec3.zero) := by
  constructor
  · intro h
    simp only [dragTranslate]
    rw [if_pos h]
  · intro h
    constructor
    · simp only [dragTranslate]
      rw [if_neg (not_lt.2 h)]
    · exact Vec3.smul_cross_self _ _

theorem claim_C3_witness :
    (1e-6 : ℝ) ≤ |dsTranslateFix.planeNormalWorld.dot ⟨0, 0, -1⟩| ∧
    dragTranslate dsTranslateFix ⟨2, 0, 1⟩ ⟨0, 0, -1⟩ =
      some ⟨⟨2, 0, 0⟩, Quat.one⟩ := by
  have h : (1e-6 : ℝ) ≤ |dsTranslateFix.planeNormalWorld.dot ⟨0, 0, -1⟩| := by
    norm_num [dsTranslateFix, Vec3.dot]
  refine ⟨h, ?_⟩
  have h2 := ((claim_C3 dsTranslateFix ⟨2, 0, 1⟩ ⟨0, 0, -1⟩).2 h).1
  rw [h2]
  norm_num [dsTranslateFix, Transform.idT, Vec3.dot, Vec3.sub, Vec3.add,
    Vec3.smul, Vec3.zero]

/-- Claim C10: for every drag session and every ray, any transform
returned by `drag_translate` has the rotation captured at drag start
(translate drags never change rotation), and any transform returned by
`drag_rotate` has the translation captured at drag start (rotate drags
never change translation). -/
theorem claim_C10 (ds : DragState) (axis : Axis) (rayO rayD : Vec3) :
    (∀ out, dragTranslate ds rayO rayD = some out →
      out.rotation = ds.startTransform.rotation) ∧
    (∀ out, dragRotate ds axis rayO rayD = some out →
      out.translation = ds.startTransform.translation) := by
  constructor
  · intro out h
    simp only [dragTranslate] at h
    by_cases hc : |ds.planeNormalWorld.dot rayD| < 1e-6
    · rw [if_pos hc] at h
      exact absurd h (by simp)
    · rw [if_neg hc] at h
      simp only [Option.some.injEq] at h
      rw [← h]
  · intro out h
    unfold dragRotate at h
    cases hd : dragRotateDelta ds rayO rayD with
    | none =>
      rw [hd] at h
      exact absurd h (by simp)
    | some delta =>
      rw [hd] at h
      simp only [Option.some.injEq] at h
      rw [← h]

theorem claim_C10_witness :
    (⟨⟨2, 0, 0⟩, Quat.one⟩ : Transform).rotation =
      dsTranslateFix.startTransform.rotation ∧
    (⟨Vec3.zero, Quat.one⟩ : Transform).translation =
      dsRotateFix.startTransform.translation := by
  have hT : dragTranslate dsTranslateFix ⟨2, 0, 1⟩ ⟨0, 0, -1⟩ =
      some ⟨⟨2, 0, 0⟩, Quat.one⟩ := by
    simp only [dragTranslate, dsTranslateFix]
    rw [if_neg (by norm_num [Vec3.dot])]
    norm_num [Transform.idT, Vec3.dot, Vec3.sub, Vec3.add, Vec3.smul, Vec3.zero]
  have hDelta : dragRotateDelta dsRotateFix ⟨1, 0, 1⟩ ⟨0, 0, -1⟩ = some 0 := by
    simp only [dragRotateDelta, dsRotateFix]
    rw [if_neg (by norm_num [Vec3.dot])]
    rw [if_neg (by norm_num [Vec3.dot, Vec3.sub, Vec3.zero])]
    have hv : ((⟨1, 0, 1⟩ : Vec3).add
        ((⟨0, 0, -1⟩ : Vec3).smul
          (Vec3.dot ⟨0, 0, 1⟩ (Vec3.zero.sub ⟨1, 0, 1⟩) /
            Vec3.dot ⟨0, 0, 1⟩ ⟨0, 0, -1⟩))).sub Vec3.zero = ⟨1, 0, 0⟩ := by
      norm_num [Vec3.dot, Vec3.sub, Vec3.add, Vec3.smul, Vec3.zero]
    rw [hv]
    have hn : (⟨1, 0, 0⟩ : Vec3).normalizeOrZero = ⟨1, 0, 0⟩ := by
      unfold Vec3.normalizeOrZero Vec3.length Vec3.lengthSq
      rw [if_neg (by norm_num [Vec3.dot])]
      norm_num [Vec3.dot, Vec3.smul]
    rw [hn]
    have ha : atan2 (Vec3.dot ⟨1, 0, 0⟩ ⟨0, 1, 0⟩) (Vec3.dot ⟨1, 0, 0⟩ ⟨1, 0, 0⟩) =
        0 := by
      norm_num [Vec3.dot]
      exact atan2_zero_one
    rw [ha]
    rw [show (0 : ℝ) - 0 = 0 by ring]
    rw [wrapPi_of_mem 0 Real.pi_nonneg (by linarith [Real.pi_nonneg])]
  have hR : dragRotate dsRotateFix Axis.x ⟨1, 0, 1⟩ ⟨0, 0, -1⟩ =
      some ⟨Vec3.zero, Quat.one⟩ := by
    unfold dragRotate
    rw [hDelta]
    simp only [dsRotateFix, Transform.idT, quatFromTransform,
      Quat.normalize_one, Quat.fromAxisAngle_zeroAngle, axisLocalVec]
    rw [show (Quat.one.mul ⟨0, 0, 0, 1⟩) = Quat.one from Quat.one_mul_q _]
    rw [Quat.normalize_one]
  exact ⟨(claim_C10 dsTranslateFix Axis.x ⟨2, 0, 1⟩ ⟨0, 0, -1⟩).1 _ hT,
    (claim_C10 dsRotateFix Axis.x ⟨1, 0, 1⟩ ⟨0, 0, -1⟩).2 _ hR⟩

theorem Vec3.lengthSq_zero : Vec3.zero.lengthSq = 0 := by
  unfold Vec3.lengthSq Vec3.dot Vec3.zero
  norm_num

theorem Vec3.normalizeOrZero_zero : Vec3.zero.normalizeOrZero = Vec3.zero := by
  unfold Vec3.normalizeOrZero
  rw [if_pos Vec3.lengthSq_zero]

/-- Claim C4 (amended): in every reader of a stored quaternion
(`quat_from_transform` in the gizmo/overlay/drag code, `transform_mat`
when building the combined mesh and when picking) the quaternion is
re-normalized first — positively rescaling the stored quaternion does not
change the rotation read, and the quaternion actually used has unit
norm for every nonzero stored quaternion.  There is, however, no
fallback to the identity rotation for a degenerate quaternion (see the
counterexample). -/
theorem claim_C4 (t : Transform) (k : ℝ) (hk : 0 < k)
    (hq : t.rotation.lengthSq ≠ 0) :
    quatFromTransform { t with rotation := t.rotation.smul k } =
      quatFromTransform t ∧
    (quatFromTransform t).lengthSq = 1 ∧
    transformMat { t with rotation := t.rotation.smul k } = transformMat t ∧
    (transformMat t).rot.lengthSq = 1 := by
  refine ⟨?_, ?_, ?_, ?_⟩
  · unfold quatFromTransform
    exact Quat.normalize_smul k t.rotation hk
  · unfold quatFromTransform
    exact Quat.lengthSq_normalize t.rotation hq
  · unfold transformMat
    simp only [TRMat.mk.injEq]
    exact ⟨Quat.normalize_smul k t.rotation hk, trivial⟩
  · unfold transformMat
    exact Quat.lengthSq_normalize t.rotation hq

theorem claim_C4_witness :
    ((0 : ℝ) < 3 ∧ (⟨Vec3.zero, ⟨0, 0, 0, 2⟩⟩ : Transform).rotation.lengthSq ≠ 0) ∧
    (quatFromTransform { (⟨Vec3.zero, ⟨0, 0, 0, 2⟩⟩ : Transform) with
        rotation := Quat.smul 3 ⟨0, 0, 0, 2⟩ } =
      quatFromTransform ⟨Vec3.zero, ⟨0, 0, 0, 2⟩⟩ ∧
     (quatFromTransform ⟨Vec3.zero, ⟨0, 0, 0, 2⟩⟩).lengthSq = 1 ∧
     transformMat { (⟨Vec3.zero, ⟨0, 0, 0, 2⟩⟩ : Transform) with
        rotation := Quat.smul 3 ⟨0, 0, 0, 2⟩ } =
      transformMat ⟨Vec3.zero, ⟨0, 0, 0, 2⟩⟩ ∧
     (transformMat ⟨Vec3.zero, ⟨0, 0, 0, 2⟩⟩).rot.lengthSq = 1) := by
  have h1 : (0 : ℝ) < 3 := by norm_num
  have h2 : (⟨Vec3.zero, ⟨0, 0, 0, 2⟩⟩ : Transform).rotation.lengthSq ≠ 0 := by
    norm_num [Quat.lengthSq]
  exact ⟨⟨h1, h2⟩, claim_C4 ⟨Vec3.zero, ⟨0, 0, 0, 2⟩⟩ 3 h1 h2⟩

theorem claim_C4_counterexample :
    quatFromTransform ⟨Vec3.zero, ⟨0, 0, 0, 0⟩⟩ = (⟨0, 0, 0, 0⟩ : Quat) ∧
    (transformMat ⟨Vec3.zero, ⟨0, 0, 0, 0⟩⟩).rot = (⟨0, 0, 0, 0⟩ : Quat) ∧
    (⟨0, 0, 0, 0⟩ : Quat) ≠ Quat.one := by
  refine ⟨?_, ?_, ?_⟩
  · unfold quatFromTransform Quat.normalize Quat.smul
    norm_num
  · unfold transformMat Quat.normalize Quat.smul
    norm_num
  · intro h
    rw [Quat.one, Quat.mk.injEq] at h
    exact absurd h.2.2.2 (by norm_num)

theorem raySphereIntersect_zero_dir (rayO center : Vec3) (radius : ℝ) :
    raySphereIntersect rayO Vec3.zero center radius = none := by
  simp only [raySphereIntersect]
  have hb : (rayO.sub center).dot Vec3.zero = 0 := by
    unfold Vec3.dot Vec3.zero
    ring
  rw [hb]
  split_ifs with h1 h2
  · rfl
  · exact absurd h2 (by
      nlinarith [Real.sqrt_nonneg
        (0 * 0 - ((rayO.sub center).dot (rayO.sub center) - radius * radius))])
  · rfl

theorem foldl_pickobj_none
    (f : Option (ℕ × ℝ) → ModelObject → Option (ℕ × ℝ))
    (hf : ∀ o, f none o = none) :
    ∀ l : List ModelObject, l.foldl f none = none
  | [] => rfl
  | o :: rest => by
    rw [List.foldl_cons, hf o]
    exact foldl_pickobj_none f hf rest

/-- Claim C5 (amended): both picking entry points are pure functions of
the scene and the ray.  `pick_surface` normalizes the ray direction
internally (positively rescaling the direction does not change the
result) and yields no hit for the degenerate zero direction.
`pick_object` also yields no hit for the zero direction, but it does NOT
normalize the direction internally — it uses the direction exactly as
passed (see the counterexample for scale-dependence). -/
theorem claim_C5 (s : GeomScene) (rayO rayD : Vec3) (k : ℝ) (hk : 0 < k) :
    s.pickSurface rayO (rayD.smul k) = s.pickSurface rayO rayD ∧
    s.pickSurface rayO Vec3.zero = none ∧
    pickObject s rayO Vec3.zero = none := by
  refine ⟨?_, ?_, ?_⟩
  · simp only [GeomScene.pickSurface]
    rw [Vec3.normalizeOrZero_smul k rayD hk]
  · simp only [GeomScene.pickSurface]
    rw [Vec3.normalizeOrZero_zero, if_pos (by rw [Vec3.lengthSq_zero]; norm_num)]
  · unfold pickObject
    rw [foldl_pickobj_none _ (fun o => by
      simp [raySphereIntersect_zero_dir]) s.model.objects]
    rfl

theorem claim_C5_witness :
    (0 : ℝ) < 2 ∧
    (sceneOneSphere.pickSurface Vec3.zero ((⟨0, 0, -1⟩ : Vec3).smul 2) =
       sceneOneSphere.pickSurface Vec3.zero ⟨0, 0, -1⟩ ∧
     sceneOneSphere.pickSurface Vec3.zero Vec3.zero = none ∧
     pickObject sceneOneSphere Vec3.zero Vec3.zero = none) :=
  ⟨by norm_num, claim_C5 sceneOneSphere Vec3.zero ⟨0, 0, -1⟩ 2 (by norm_num)⟩

theorem sceneOneSphere_objects :
    sceneOneSphere.model.objects =
      [⟨0, ObjectKind.box 1 1 1, ⟨⟨0, 0, -5⟩, Quat.one⟩⟩] := by
  simp [sceneOneSphere, GeomScene.new, GeomScene.addObject, Model.addObject,
    Model.empty, GeomScene.setObjectTransform, Model.setTransform,
    setFirstTransform, Transform.idT]

theorem sceneOneSphere_radius : sceneOneSphere.boundsRadius = [1] := by
  simp [sceneOneSphere, GeomScene.new, GeomScene.addObject, Model.addObject,
    Model.empty, GeomScene.setObjectTransform, Model.setTransform,
    setFirstTransform, meshBoundsRadius, meshPointUnit, Vec3.length,
    Vec3.lengthSq, Vec3.dot]

theorem sceneOneSphere_boundsRadiusOf :
    sceneOneSphere.boundsRadiusOf 0 = some 1 := by
  unfold GeomScene.boundsRadiusOf
  rw [sceneOneSphere_objects, sceneOneSphere_radius]
  simp [List.findIdx?]

theorem raySphere_eval_hit :
    raySphereIntersect Vec3.zero ⟨0, 0, -1⟩ ⟨0, 0, -5⟩ 1 = some 4 := by
  simp only [raySphereIntersect]
  norm_num [Vec3.sub, Vec3.dot, Vec3.zero, Real.sqrt_one]

theorem raySphere_eval_miss :
    raySphereIntersect Vec3.zero ((⟨0, 0, -1⟩ : Vec3).smul (1 / 10))
      ⟨0, 0, -5⟩ 1 = none := by
  simp only [raySphereIntersect]
  norm_num [Vec3.sub, Vec3.dot, Vec3.zero, Vec3.smul]

theorem claim_C5_counterexample :
    pickObject sceneOneSphere Vec3.zero ((⟨0, 0, -1⟩ : Vec3).smul (1 / 10)) =
      none ∧
    pickObject sceneOneSphere Vec3.zero ⟨0, 0, -1⟩ = some 0 ∧
    ((⟨0, 0, -1⟩ : Vec3).smul (1 / 10)).normalizeOrZero =
      (⟨0, 0, -1⟩ : Vec3).normalizeOrZero := by
  refine ⟨?_, ?_, Vec3.normalizeOrZero_smul (1 / 10) _ (by norm_num)⟩
  · unfold pickObject
    rw [sceneOneSphere_objects]
    simp only [List.foldl_cons, List.foldl_nil, sceneOneSphere_boundsRadiusOf,
      Option.getD_some]
    rw [show max (1 : ℝ) (1 / 20) = 1 by norm_num]
    rw [raySphere_eval_miss]
    rfl
  · unfold pickObject
    rw [sceneOneSphere_objects]
    simp only [List.foldl_cons, List.foldl_nil, sceneOneSphere_boundsRadiusOf,
      Option.getD_some]
    rw [show max (1 : ℝ) (1 / 20) = 1 by norm_num]
    rw [raySphere_eval_hit]
    rfl

theorem atan2_le_pi (y x : ℝ) : atan2 y x ≤ Real.pi := Complex.arg_le_pi _

theorem neg_pi_lt_atan2 (y x : ℝ) : -Real.pi < atan2 y x :=
  Complex.neg_pi_lt_arg _

theorem wrapPi_bounds (raw : ℝ) (h1 : -(2 * Real.pi) < raw)
    (h2 : raw ≤ 2 * Real.pi) :
    (-Real.pi ≤ wrapPi raw ∧ wrapPi raw ≤ Real.pi) ∧
    ∃ k : ℤ, wrapPi raw = raw + k * (2 * Real.pi) := by
  unfold wrapPi
  split_ifs with ha hb
  · refine ⟨⟨by linarith [Real.pi_pos], by linarith [Real.pi_pos]⟩, -1, ?_⟩
    push_cast
    ring
  · refine ⟨⟨by linarith [Real.pi_pos], by linarith [Real.pi_pos]⟩, 1, ?_⟩
    push_cast
    ring
  · refine ⟨⟨by linarith, by linarith⟩, 0, ?_⟩
    push_cast
    ring

/-- Claim C2 (amended): for every active rotate-drag session and every
pointer-move ray meeting the ring plane away from parallel
(`|n·d| ≥ 1e-6`) and strictly in front of the ray origin, with the
session's start angle in the `atan2` range `[-π, π]`: `drag_rotate`
returns the transform captured at drag start with its translation intact
and its rotation replaced by the re-normalized start rotation composed in
object-local space (right-multiplied) with a rotation of `delta` about
the chosen local axis, where `delta` is the difference between the ring
angle of the interaction point and the start angle, shifted by an integer
multiple of `2π` into `[-π, π]`.  (The code's one-step unwrap attains the
left end `-π` exactly, so the claimed half-open interval `(-π, π]` is
widened to the closed interval; see the counterexample.)  In particular,
driving the ray angle from `+179°` to `-179°` across one frame produces a
delta of `+2°` (`2π/180`), not `-358°`. -/
theorem claim_C2 (ds : DragState) (axis : Axis) (rayO rayD : Vec3)
    (hdenom : 1e-6 ≤ |ds.planeNormalWorld.dot rayD|)
    (ht : 0 < ds.planeNormalWorld.dot (ds.startOriginWorld.sub rayO) /
      ds.planeNormalWorld.dot rayD)
    (hstart : -Real.pi ≤ ds.startAngle ∧ ds.startAngle ≤ Real.pi) :
    ∃ delta,
      dragRotateDelta ds rayO rayD = some delta ∧
      dragRotate ds axis rayO rayD = some
        { ds.startTransform with rotation :=
            ((quatFromTransform ds.startTransform).mul
              (Quat.fromAxisAngle (axisLocalVec axis) delta)).normalize } ∧
      -Real.pi ≤ delta ∧ delta ≤ Real.pi ∧
      (∃ k : ℤ, delta =
        (atan2
          ((((rayO.add (rayD.smul
              (ds.planeNormalWorld.dot (ds.startOriginWorld.sub rayO) /
                ds.planeNormalWorld.dot rayD))).sub
              ds.startOriginWorld).normalizeOrZero).dot ds.ringVWorld)
          ((((rayO.add (rayD.smul
              (ds.planeNormalWorld.dot (ds.startOriginWorld.sub rayO) /
                ds.planeNormalWorld.dot rayD))).sub
              ds.startOriginWorld).normalizeOrZero).dot ds.ringUWorld) -
          ds.startAngle) + k * (2 * Real.pi)) ∧
      wrapPi (-(179 / 180) * Real.pi - 179 / 180 * Real.pi) =
        2 / 180 * Real.pi := by
  have hne : ¬ |ds.planeNormalWorld.dot rayD| < 1e-6 := not_lt.2 hdenom
  have hnt : ¬ ds.planeNormalWorld.dot (ds.startOriginWorld.sub rayO) /
      ds.planeNormalWorld.dot rayD ≤ 0 := not_le.2 ht
  have hdelta : dragRotateDelta ds rayO rayD = some (wrapPi
      (atan2
        ((((rayO.add (rayD.smul
            (ds.planeNormalWorld.dot (ds.startOriginWorld.sub rayO) /
              ds.planeNormalWorld.dot rayD))).sub
            ds.startOriginWorld).normalizeOrZero).dot ds.ringVWorld)
        ((((rayO.add (rayD.smul
            (ds.planeNormalWorld.dot (ds.startOriginWorld.sub rayO) /
              ds.planeNormalWorld.dot rayD))).sub
            ds.startOriginWorld).normalizeOrZero).dot ds.ringUWorld) -
        ds.startAngle)) := by
    simp only [dragRotateDelta]
    rw [if_neg hne, if_neg hnt]
  refine ⟨_, hdelta, ?_, ?_⟩
  · unfold dragRotate
    rw [hdelta]
  · have hb := wrapPi_bounds
      (atan2
        ((((rayO.add (rayD.smul
            (ds.planeNormalWorld.dot (ds.startOriginWorld.sub rayO) /
              ds.planeNormalWorld.dot rayD))).sub
            ds.startOriginWorld).normalizeOrZero).dot ds.ringVWorld)
        ((((rayO.add (rayD.smul
            (ds.planeNormalWorld.dot (ds.startOriginWorld.sub rayO) /
              ds.planeNormalWorld.dot rayD))).sub
            ds.startOriginWorld).normalizeOrZero).dot ds.ringUWorld) -
        ds.startAngle)
      (by
        have := neg_pi_lt_atan2
          ((((rayO.add (rayD.smul
              (ds.planeNormalWorld.dot (ds.startOriginWorld.sub rayO) /
                ds.planeNormalWorld.dot rayD))).sub
              ds.startOriginWorld).normalizeOrZero).dot ds.ringVWorld)
          ((((rayO.add (rayD.smul
              (ds.planeNormalWorld.dot (ds.startOriginWorld.sub rayO) /
                ds.planeNormalWorld.dot rayD))).sub
              ds.startOriginWorld).normalizeOrZero).dot ds.ringUWorld)
        linarith [hstart.2])
      (by
        have := atan2_le_pi
          ((((rayO.add (rayD.smul
              (ds.planeNormalWorld.dot (ds.startOriginWorld.sub rayO) /
                ds.planeNormalWorld.dot rayD))).sub
              ds.startOriginWorld).normalizeOrZero).dot ds.ringVWorld)
          ((((rayO.add (rayD.smul
              (ds.planeNormalWorld.dot (ds.startOriginWorld.sub rayO) /
                ds.planeNormalWorld.dot rayD))).sub
              ds.startOriginWorld).normalizeOrZero).dot ds.ringUWorld)
        linarith [hstart.1])
    refine ⟨hb.1.1, hb.1.2, hb.2, ?_⟩
    unfold wrapPi
    rw [if_neg (by nlinarith [Real.pi_pos]), if_pos (by nlinarith [Real.pi_pos])]
    ring

theorem claim_C2_witness :
    ((1e-6 : ℝ) ≤ |dsRotateFix.planeNormalWorld.dot ⟨0, 0, -1⟩| ∧
     0 < dsRotateFix.planeNormalWorld.dot
        (dsRotateFix.startOriginWorld.sub ⟨1, 0, 1⟩) /
        dsRotateFix.planeNormalWorld.dot ⟨0, 0, -1⟩ ∧
     -Real.pi ≤ dsRotateFix.startAngle ∧ dsRotateFix.startAngle ≤ Real.pi) ∧
    ∃ delta,
      dragRotateDelta dsRotateFix ⟨1, 0, 1⟩ ⟨0, 0, -1⟩ = some delta ∧
      dragRotate dsRotateFix Axis.x ⟨1, 0, 1⟩ ⟨0, 0, -1⟩ = some
        { dsRotateFix.startTransform with rotation :=
            ((quatFromTransform dsRotateFix.startTransform).mul
              (Quat.fromAxisAngle (axisLocalVec Axis.x) delta)).normalize } ∧
      -Real.pi ≤ delta ∧ delta ≤ Real.pi := by
  have h1 : (1e-6 : ℝ) ≤ |dsRotateFix.planeNormalWorld.dot ⟨0, 0, -1⟩| := by
    norm_num [dsRotateFix, Vec3.dot]
  have h2 : 0 < dsRotateFix.planeNormalWorld.dot
      (dsRotateFix.startOriginWorld.sub ⟨1, 0, 1⟩) /
      dsRotateFix.planeNormalWorld.dot ⟨0, 0, -1⟩ := by
    norm_num [dsRotateFix, Vec3.dot, Vec3.sub, Vec3.zero]
  have h3 : -Real.pi ≤ dsRotateFix.startAngle ∧
      dsRotateFix.startAngle ≤ Real.pi := by
    rw [show dsRotateFix.startAngle = 0 from rfl]
    exact ⟨by linarith [Real.pi_nonneg], Real.pi_nonneg⟩
  obtain ⟨delta, hA, hB, hC, hD, -, -⟩ :=
    claim_C2 dsRotateFix Axis.x ⟨1, 0, 1⟩ ⟨0, 0, -1⟩ h1 h2 h3
  exact ⟨⟨h1, h2, h3⟩, delta, hA, hB, hC, hD⟩

theorem claim_C2_counterexample :
    dragRotateDelta dsRotatePiFix ⟨1, 0, 1⟩ ⟨0, 0, -1⟩ = some (-Real.pi) ∧
    -Real.pi ∉ Set.Ioc (-Real.pi) Real.pi := by
  constructor
  · simp only [dragRotateDelta, dsRotatePiFix]
    rw [if_neg (by norm_num [Vec3.dot])]
    rw [if_neg (by norm_num [Vec3.dot, Vec3.sub, Vec3.zero])]
    have hv : ((⟨1, 0, 1⟩ : Vec3).add
        ((⟨0, 0, -1⟩ : Vec3).smul
          (Vec3.dot ⟨0, 0, 1⟩ (Vec3.zero.sub ⟨1, 0, 1⟩) /
            Vec3.dot ⟨0, 0, 1⟩ ⟨0, 0, -1⟩))).sub Vec3.zero = ⟨1, 0, 0⟩ := by
      norm_num [Vec3.dot, Vec3.sub, Vec3.add, Vec3.smul, Vec3.zero]
    rw [hv]
    have hn : (⟨1, 0, 0⟩ : Vec3).normalizeOrZero = ⟨1, 0, 0⟩ := by
      unfold Vec3.normalizeOrZero Vec3.length Vec3.lengthSq
      rw [if_neg (by norm_num [Vec3.dot])]
      norm_num [Vec3.dot, Vec3.smul]
    rw [hn]
    have ha : atan2 (Vec3.dot ⟨1, 0, 0⟩ ⟨0, 1, 0⟩) (Vec3.dot ⟨1, 0, 0⟩ ⟨1, 0, 0⟩) =
        0 := by
      norm_num [Vec3.dot]
      exact atan2_zero_one
    rw [ha]
    rw [show (0 : ℝ) - Real.pi = -Real.pi by ring]
    rw [wrapPi_of_mem (-Real.pi) (by linarith [Real.pi_pos]) (le_refl _)]
  · intro h
    exact lt_irrefl _ h.1

theorem setFirstTransform_none (id : ℕ) (t : Transform) :
    ∀ l : List ModelObject, (∀ o ∈ l, o.id ≠ id) →
      setFirstTransform id t l = none
  | [], _ => rfl
  | o :: rest, h => by
    unfold setFirstTransform
    rw [if_neg (h o (List.mem_cons_self o rest))]
    rw [setFirstTransform_none id t rest
      (fun o2 ho2 => h o2 (List.mem_cons_of_mem _ ho2))]
    rfl

theorem map_setT_of_absent (id : ℕ) (t : Transform) :
    ∀ l : List ModelObject, (∀ o ∈ l, o.id ≠ id) →
      l.map (fun o => if o.id = id then { o with transform := t } else o) = l
  | [], _ => rfl
  | o :: rest, h => by
    rw [List.map_cons, if_neg (h o (List.mem_cons_self o rest))]
    rw [map_setT_of_absent id t rest
      (fun o2 ho2 => h o2 (List.mem_cons_of_mem _ ho2))]

theorem setFirstTransform_some (id : ℕ) (t : Transform) :
    ∀ l : List ModelObject,
      (l.map (fun o => o.id)).Nodup → (∃ o ∈ l, o.id = id) →
      setFirstTransform id t l =
        some (l.map (fun o =>
          if o.id = id then { o with transform := t } else o))
  | [], _, h => absurd h (by simp)
  | a :: rest, hnd, h => by
    rw [List.map_cons, List.nodup_cons] at hnd
    unfold setFirstTransform
    by_cases ha : a.id = id
    · rw [if_pos ha]
      have hrest : ∀ o ∈ rest, o.id ≠ id := by
        intro o ho hc
        exact hnd.1 (by rw [ha, ← hc]; exact List.mem_map_of_mem _ ho)
      rw [List.map_cons, if_pos ha, map_setT_of_absent id t rest hrest]
    · rw [if_neg ha]
      have h2 : ∃ o ∈ rest, o.id = id := by
        rcases h with ⟨o, ho, hoid⟩
        rcases List.mem_cons.1 ho with rfl | ho2
        · exact absurd hoid ha
        · exact ⟨o, ho2, hoid⟩
      rw [setFirstTransform_some id t rest hnd.2 h2]
      rw [Option.map_some']
      rw [List.map_cons, if_neg ha]

/-- Claim C8: for every scene state and transform value,
`set_object_transform(id, t)` with an id carried by no object returns
`false` and is a complete no-op (the whole scene state, including every
per-object cache and the combined-mesh cache, is returned unchanged);
with a present id (in a scene whose object ids are distinct, as the API
guarantees) it returns `true`, replaces exactly that object's transform
— every other object and every per-object cache list is unchanged — and
clears the combined-mesh cache. -/
theorem claim_C8 (s : GeomScene) (id : ℕ) (t : Transform) :
    ((∀ o ∈ s.model.objects, o.id ≠ id) →
      s.setObjectTransform id t = (false, s)) ∧
    ((s.model.objects.map (fun o => o.id)).Nodup →
      (∃ o ∈ s.model.objects, o.id = id) →
      s.setObjectTransform id t =
        (true,
         { s with
           model := { s.model with
             objects := s.model.objects.map (fun o =>
               if o.id = id then { o with transform := t } else o) },
           meshCache := none })) := by
  constructor
  · intro h
    unfold GeomScene.setObjectTransform Model.setTransform
    rw [setFirstTransform_none id t s.model.objects h]
  · intro hnd hex
    unfold GeomScene.setObjectTransform Model.setTransform
    rw [setFirstTransform_some id t s.model.objects hnd hex]

theorem claim_C8_witness :
    (∀ o ∈ sceneOneSphere.model.objects, o.id ≠ 7) ∧
    sceneOneSphere.setObjectTransform 7 Transform.idT = (false, sceneOneSphere) ∧
    (sceneOneSphere.model.objects.map (fun o => o.id)).Nodup ∧
    (∃ o ∈ sceneOneSphere.model.objects, o.id = 0) ∧
    sceneOneSphere.setObjectTransform 0 Transform.idT =
      (true,
       { sceneOneSphere with
         model := { sceneOneSphere.model with
           objects := sceneOneSphere.model.objects.map (fun o =>
             if o.id = 0 then { o with transform := Transform.idT } else o) },
         meshCache := none }) := by
  have habs : ∀ o ∈ sceneOneSphere.model.objects, o.id ≠ 7 := by
    rw [sceneOneSphere_objects]
    intro o ho
    rw [List.mem_singleton] at ho
    subst ho
    show (0 : ℕ) ≠ 7
    norm_num
  have hnd : (sceneOneSphere.model.objects.map (fun o => o.id)).Nodup := by
    rw [sceneOneSphere_objects]
    simp
  have hex : ∃ o ∈ sceneOneSphere.model.objects, o.id = 0 := by
    rw [sceneOneSphere_objects]
    exact ⟨_, List.mem_singleton_self _, rfl⟩
  exact ⟨habs, (claim_C8 sceneOneSphere 7 Transform.idT).1 habs, hnd, hex,
    (claim_C8 sceneOneSphere 0 Transform.idT).2 hnd hex⟩

theorem foldl_step_filterMap {α β : Type} (f : α → Option β)
    (g : Option β → β → Option β) :
    ∀ (l : List α) (acc : Option β),
      l.foldl (fun b x => match f x with | none => b | some h => g b h) acc =
      (l.filterMap f).foldl g acc
  | [], _ => rfl
  | x :: rest, acc => by
    rw [List.foldl_cons, List.filterMap_cons]
    cases hfx : f x with
    | none =>
      simp only [hfx]
      exact foldl_step_filterMap f g rest acc
    | some h =>
      simp only [hfx, List.foldl_cons]
      exact foldl_step_filterMap f g rest (g acc h)

theorem foldMinBy_none {α : Type} (dist : α → ℝ) :
    ∀ (l : List α) (acc : Option α),
      (l.foldl (foldStepBy dist) acc = none ↔ (acc = none ∧ l = []))
  | [], acc => by simp
  | x :: rest, acc => by
    rw [List.foldl_cons]
    constructor
    · intro hres
      exfalso
      have hrec := (foldMinBy_none dist rest (foldStepBy dist acc x)).1 hres
      cases acc with
      | none => exact absurd hrec.1 (by simp [foldStepBy])
      | some b0 =>
        have h1 := hrec.1
        simp only [foldStepBy] at h1
        by_cases hlt : dist x < dist b0
        · rw [if_pos hlt] at h1
          exact absurd h1 (by simp)
        · rw [if_neg hlt] at h1
          exact absurd h1 (by simp)
    · rintro ⟨-, h2⟩
      exact absurd h2 (by simp)

theorem foldMinBy_some {α : Type} (dist : α → ℝ) :
    ∀ (l : List α) (acc : Option α) (r : α),
      l.foldl (foldStepBy dist) acc = some r →
      (r ∈ l ∨ acc = some r) ∧ (∀ x ∈ l, dist r ≤ dist x) ∧
        (∀ b0, acc = some b0 → dist r ≤ dist b0)
  | [], acc, r, hres => by
    refine ⟨Or.inr hres, by simp, ?_⟩
    intro b0 hb0
    rw [hb0] at hres
    cases hres
    exact le_refl _
  | x :: rest, acc, r, hres => by
    rw [List.foldl_cons] at hres
    obtain ⟨hmem, hmin, hacc⟩ := foldMinBy_some dist rest (foldStepBy dist acc x) r hres
    have hx : dist r ≤ dist x := by
      cases acc with
      | none => exact hacc x rfl
      | some b0 =>
        by_cases hlt : dist x < dist b0
        · exact hacc x (by simp only [foldStepBy]; rw [if_pos hlt])
        · exact le_trans (hacc b0 (by simp only [foldStepBy]; rw [if_neg hlt]))
            (not_lt.1 hlt)
    refine ⟨?_, ?_, ?_⟩
    · rcases hmem with hr | hr
      · exact Or.inl (List.mem_cons_of_mem _ hr)
      · cases acc with
        | none =>
          simp only [foldStepBy] at hr
          cases hr
          exact Or.inl (List.mem_cons_self _ _)
        | some b0 =>
          simp only [foldStepBy] at hr
          by_cases hlt : dist x < dist b0
          · rw [if_pos hlt] at hr
            cases hr
            exact Or.inl (List.mem_cons_self _ _)
          · rw [if_neg hlt] at hr
            exact Or.inr hr
    · intro x2 hx2
      rcases List.mem_cons.1 hx2 with rfl | hx2
      · exact hx
      · exact hmin x2 hx2
    · intro b0 hb0
      subst hb0
      by_cases hlt : dist x < dist b0
      · exact le_trans hx (le_of_lt hlt)
      · exact hacc b0 (by simp only [foldStepBy]; rw [if_neg hlt])

theorem foldMinBy_unique {α : Type} (dist : α → ℝ) (h : α) :
    ∀ (l : List α) (acc : Option α),
      (acc = some h ∨ (h ∈ l ∧ (acc = none ∨
        ∃ a, acc = some a ∧ dist h < dist a))) →
      (∀ x ∈ l, x ≠ h → dist h < dist x) →
      l.foldl (foldStepBy dist) acc = some h
  | [], acc, hinv, _ => by
    rcases hinv with hacc | ⟨hmem, -⟩
    · exact hacc
    · exact absurd hmem (by simp)
  | x :: rest, acc, hinv, hstrict => by
    rw [List.foldl_cons]
    have hstrictrest : ∀ x2 ∈ rest, x2 ≠ h → dist h < dist x2 :=
      fun x2 hx2 => hstrict x2 (List.mem_cons_of_mem _ hx2)
    rcases hinv with hacc | ⟨hmem, hrest⟩
    · subst hacc
      have hstep : foldStepBy dist (some h) x = some h := by
        simp only [foldStepBy]
        by_cases hxh : x = h
        · subst hxh
          rw [if_neg (lt_irrefl _)]
        · rw [if_neg (not_lt.2 (le_of_lt
            (hstrict x (List.mem_cons_self _ _) hxh)))]
      rw [hstep]
      exact foldMinBy_unique dist h rest (some h) (Or.inl rfl) hstrictrest
    · by_cases hxh : x = h
      · subst hxh
        have hstep : foldStepBy dist acc x = some x := by
          rcases hrest with hnone | ⟨a, ha, hlt⟩
          · rw [hnone]
            rfl
          · rw [ha]
            simp only [foldStepBy]
            rw [if_pos hlt]
        rw [hstep]
        exact foldMinBy_unique dist x rest (some x) (Or.inl rfl) hstrictrest
      · have hmem2 : h ∈ rest := by
          rcases List.mem_cons.1 hmem with heq | hm
          · exact absurd heq.symm hxh
          · exact hm
        have hhx : dist h < dist x := hstrict x (List.mem_cons_self _ _) hxh
        rcases hrest with hnone | ⟨a, ha, hlt⟩
        · subst hnone
          exact foldMinBy_unique dist h rest (some x)
            (Or.inr ⟨hmem2, Or.inr ⟨x, rfl, hhx⟩⟩) hstrictrest
        · subst ha
          by_cases hxa : dist x < dist a
          · rw [show foldStepBy dist (some a) x = some x from by
              simp only [foldStepBy]; rw [if_pos hxa]]
            exact foldMinBy_unique dist h rest (some x)
              (Or.inr ⟨hmem2, Or.inr ⟨x, rfl, hhx⟩⟩) hstrictrest
          · rw [show foldStepBy dist (some a) x = some a from by
              simp only [foldStepBy]; rw [if_neg hxa]]
            exact foldMinBy_unique dist h rest (some a)
              (Or.inr ⟨hmem2, Or.inr ⟨a, rfl, hlt⟩⟩) hstrictrest

theorem foldl_fun_congr {α β : Type} (f g : β → α → β)
    (hfg : ∀ b a, f b a = g b a) :
    ∀ (l : List α) (b : β), l.foldl f b = l.foldl g b
  | [], _ => rfl
  | x :: rest, b => by
    rw [List.foldl_cons, List.foldl_cons, hfg b x]
    exact foldl_fun_congr f g hfg rest (g b x)

theorem pickObject_eq_foldMin (s : GeomScene) (rayO rayD : Vec3) :
    pickObject s rayO rayD =
      ((sphereHits s rayO rayD).foldl
        (foldStepBy (fun p : ℕ × ℝ => p.2)) none).map Prod.fst := by
  unfold pickObject sphereHits
  rw [← foldl_step_filterMap]
  congr 1
  refine foldl_fun_congr _ _ ?_ s.model.objects none
  intro best obj
  cases hr : raySphereIntersect rayO rayD obj.transform.translation
      (max ((s.boundsRadiusOf obj.id).getD (1 / 2)) (1 / 20)) with
  | none => simp only [hr, Option.map_none']
  | some t =>
    cases best with
    | none =>
      simp only [hr, Option.map_some']
      simp [foldStepBy]
    | some p =>
      simp only [hr, Option.map_some']
      simp [foldStepBy]

/-- Claim C6 (amended): `pick_object` tests every object's bounding
sphere centered at the object's world translation with the CLAMPED
radius `bounds_radius(id).unwrap_or(0.5).max(0.05)` (not the raw cached
radius — see the counterexample), and returns the id of the hit with the
smallest positive intersection distance, or `None` when no sphere has a
positive-distance intersection.  A unit-direction ray aimed exactly at an
object's world translation from strictly outside its clamped sphere hits
it at distance `dist - radius` and that object is returned whenever every
other sphere hit is strictly farther. -/
theorem claim_C6 (s : GeomScene) (rayO rayD : Vec3) :
    (pickObject s rayO rayD = none ↔ sphereHits s rayO rayD = []) ∧
    (∀ id, pickObject s rayO rayD = some id →
      ∃ p ∈ sphereHits s rayO rayD, p.1 = id ∧
        ∀ q ∈ sphereHits s rayO rayD, p.2 ≤ q.2) ∧
    (∀ obj ∈ s.model.objects, ∀ dist : ℝ,
      obj.transform.translation.sub rayO = rayD.smul dist →
      rayD.lengthSq = 1 →
      max ((s.boundsRadiusOf obj.id).getD (1 / 2)) (1 / 20) < dist →
      (∀ q ∈ sphereHits s rayO rayD,
        q ≠ (obj.id,
          dist - max ((s.boundsRadiusOf obj.id).getD (1 / 2)) (1 / 20)) →
        dist - max ((s.boundsRadiusOf obj.id).getD (1 / 2)) (1 / 20) < q.2) →
      pickObject s rayO rayD = some obj.id) := by
  refine ⟨?_, ?_, ?_⟩
  · rw [pickObject_eq_foldMin, Option.map_eq_none', foldMinBy_none]
    simp
  · intro id hid
    rw [pickObject_eq_foldMin] at hid
    rcases Option.map_eq_some'.1 hid with ⟨p, hp, hfst⟩
    obtain ⟨hmem, hmin, -⟩ := foldMinBy_some (fun p : ℕ × ℝ => p.2) _ _ _ hp
    rcases hmem with hmem | habs
    · exact ⟨p, hmem, hfst, hmin⟩
    · exact absurd habs (by simp)
  · intro obj hobj dist hAim hUnit hFar hOthers
    set r := max ((s.boundsRadiusOf obj.id).getD (1 / 2)) (1 / 20) with hrdef
    have hr0 : (0 : ℝ) ≤ r := le_trans (by norm_num) (le_max_right _ _)
    have hx := congrArg Vec3.x hAim
    have hy := congrArg Vec3.y hAim
    have hz := congrArg Vec3.z hAim
    simp only [Vec3.sub, Vec3.smul] at hx hy hz
    have hox : rayO.x = obj.transform.translation.x - dist * rayD.x := by
      linarith
    have hoy : rayO.y = obj.transform.translation.y - dist * rayD.y := by
      linarith
    have hoz : rayO.z = obj.transform.translation.z - dist * rayD.z := by
      linarith
    have hU : rayD.x * rayD.x + rayD.y * rayD.y + rayD.z * rayD.z = 1 := by
      have h2 := hUnit
      unfold Vec3.lengthSq Vec3.dot at h2
      linarith
    have hb : (rayO.sub obj.transform.translation).dot rayD = -dist := by
      unfold Vec3.sub Vec3.dot
      rw [hox, hoy, hoz]
      linear_combination (-dist) * hU
    have hcc : (rayO.sub obj.transform.translation).dot
        (rayO.sub obj.transform.translation) = dist * dist := by
      unfold Vec3.sub Vec3.dot
      rw [hox, hoy, hoz]
      linear_combination (dist * dist) * hU
    have hray : raySphereIntersect rayO rayD obj.transform.translation r =
        some (dist - r) := by
      simp only [raySphereIntersect]
      rw [hb, hcc]
      rw [show -dist * -dist - (dist * dist - r * r) = r * r by ring]
      rw [if_neg (not_lt.2 (mul_self_nonneg r))]
      rw [Real.sqrt_mul_self hr0]
      rw [if_pos (by linarith)]
      rw [show - -dist - r = dist - r by ring]
    have hmem : (obj.id, dist - r) ∈ sphereHits s rayO rayD := by
      unfold sphereHits
      exact List.mem_filterMap.2 ⟨obj, hobj, by rw [hray]; rfl⟩
    rw [pickObject_eq_foldMin]
    rw [foldMinBy_unique (fun p : ℕ × ℝ => p.2) (obj.id, dist - r) _ none
      (Or.inr ⟨hmem, Or.inl rfl⟩) (fun q hq hne => hOthers q hq hne)]
    rfl

theorem sceneOneSphere_sphereHits :
    sphereHits sceneOneSphere Vec3.zero ⟨0, 0, -1⟩ = [(0, 4)] := by
  unfold sphereHits
  rw [sceneOneSphere_objects]
  rw [List.filterMap_cons]
  simp only [sceneOneSphere_boundsRadiusOf, Option.getD_some]
  rw [show max (1 : ℝ) (1 / 20) = 1 by norm_num]
  rw [raySphere_eval_hit]
  rfl

theorem claim_C6_witness :
    ((⟨0, ObjectKind.box 1 1 1, ⟨⟨0, 0, -5⟩, Quat.one⟩⟩ : ModelObject) ∈
      sceneOneSphere.model.objects ∧
     (⟨0, 0, -5⟩ : Vec3).sub Vec3.zero = (⟨0, 0, -1⟩ : Vec3).smul 5 ∧
     (⟨0, 0, -1⟩ : Vec3).lengthSq = 1 ∧
     max ((sceneOneSphere.boundsRadiusOf 0).getD (1 / 2)) (1 / 20) < 5) ∧
    pickObject sceneOneSphere Vec3.zero ⟨0, 0, -1⟩ = some 0 := by
  have hobj : (⟨0, ObjectKind.box 1 1 1, ⟨⟨0, 0, -5⟩, Quat.one⟩⟩ : ModelObject) ∈
      sceneOneSphere.model.objects := by
    rw [sceneOneSphere_objects]
    exact List.mem_singleton_self _
  have hAim : (⟨0, 0, -5⟩ : Vec3).sub Vec3.zero = (⟨0, 0, -1⟩ : Vec3).smul 5 := by
    simp [Vec3.sub, Vec3.smul, Vec3.zero]
  have hUnit : (⟨0, 0, -1⟩ : Vec3).lengthSq = 1 := by
    norm_num [Vec3.lengthSq, Vec3.dot]
  have hFar : max ((sceneOneSphere.boundsRadiusOf 0).getD (1 / 2)) (1 / 20) <
      (5 : ℝ) := by
    rw [sceneOneSphere_boundsRadiusOf]
    norm_num
  have hOthers : ∀ q ∈ sphereHits sceneOneSphere Vec3.zero ⟨0, 0, -1⟩,
      q ≠ (0, 5 - max ((sceneOneSphere.boundsRadiusOf 0).getD (1 / 2)) (1 / 20)) →
      5 - max ((sceneOneSphere.boundsRadiusOf 0).getD (1 / 2)) (1 / 20) < q.2 := by
    intro q hq hne
    exfalso
    apply hne
    rw [sceneOneSphere_sphereHits, List.mem_singleton] at hq
    subst hq
    rw [sceneOneSphere_boundsRadiusOf]
    rw [show max ((some (1:ℝ)).getD (1/2)) (1/20) = 1 by norm_num]
    norm_num
  exact ⟨⟨hobj, hAim, hUnit, hFar⟩,
    (claim_C6 sceneOneSphere Vec3.zero ⟨0, 0, -1⟩).2.2 _ hobj 5 hAim hUnit
      hFar hOthers⟩

theorem sceneTinySphere_objects :
    sceneTinySphere.model.objects =
      [⟨0, ObjectKind.box 1 1 1, ⟨⟨0, 0, -5⟩, Quat.one⟩⟩] := by
  simp [sceneTinySphere, GeomScene.new, GeomScene.addObject, Model.addObject,
    Model.empty, GeomScene.setObjectTransform, Model.setTransform,
    setFirstTransform, Transform.idT]

theorem sceneTinySphere_radius : sceneTinySphere.boundsRadius = [1 / 100] := by
  have h : meshBoundsRadius meshPointTiny = 1 / 100 := by
    unfold meshBoundsRadius meshPointTiny
    simp only [List.map_cons, List.map_nil, List.foldl_cons, List.foldl_nil]
    rw [show Vec3.length ⟨1 / 100, 0, 0⟩ = 1 / 100 from by
      unfold Vec3.length Vec3.lengthSq Vec3.dot
      rw [show (1 : ℝ) / 100 * (1 / 100) + 0 * 0 + 0 * 0 =
        1 / 100 * (1 / 100) by ring]
      exact Real.sqrt_mul_self (by norm_num)]
    norm_num
  simp [sceneTinySphere, GeomScene.new, GeomScene.addObject, Model.addObject,
    Model.empty, GeomScene.setObjectTransform, Model.setTransform,
    setFirstTransform, h]

theorem sceneTinySphere_boundsRadiusOf :
    sceneTinySphere.boundsRadiusOf 0 = some (1 / 100) := by
  unfold GeomScene.boundsRadiusOf
  rw [sceneTinySphere_objects, sceneTinySphere_radius]
  simp [List.findIdx?]

theorem claim_C6_counterexample :
    raySphereIntersect ⟨3 / 100, 0, 0⟩ ⟨0, 0, -1⟩ ⟨0, 0, -5⟩
      ((sceneTinySphere.boundsRadiusOf 0).getD (1 / 2)) = none ∧
    pickObject sceneTinySphere ⟨3 / 100, 0, 0⟩ ⟨0, 0, -1⟩ = some 0 := by
  constructor
  · rw [sceneTinySphere_boundsRadiusOf]
    simp only [Option.getD_some, raySphereIntersect]
    norm_num [Vec3.sub, Vec3.dot]
  · unfold pickObject
    rw [sceneTinySphere_objects]
    simp only [List.foldl_cons, List.foldl_nil, sceneTinySphere_boundsRadiusOf,
      Option.getD_some]
    rw [show max ((1 : ℝ) / 100) (1 / 20) = 1 / 20 by norm_num]
    rw [show raySphereIntersect ⟨3 / 100, 0, 0⟩ ⟨0, 0, -1⟩ ⟨0, 0, -5⟩ (1 / 20) =
        some (124 / 25) from by
      simp only [raySphereIntersect]
      rw [show Vec3.dot (Vec3.sub ⟨3 / 100, 0, 0⟩ ⟨0, 0, -5⟩) ⟨0, 0, -1⟩ =
        -5 from by norm_num [Vec3.sub, Vec3.dot]]
      rw [show Vec3.dot (Vec3.sub ⟨3 / 100, 0, 0⟩ ⟨0, 0, -5⟩)
          (Vec3.sub ⟨3 / 100, 0, 0⟩ ⟨0, 0, -5⟩) = 25 + 9 / 10000 from by
        norm_num [Vec3.sub, Vec3.dot]]
      rw [show (-5 : ℝ) * -5 - (25 + 9 / 10000 - 1 / 20 * (1 / 20)) =
        1 / 25 * (1 / 25) by norm_num]
      rw [if_neg (by norm_num)]
      rw [Real.sqrt_mul_self (by norm_num : (0 : ℝ) ≤ 1 / 25)]
      rw [if_pos (by norm_num)]
      norm_num]
    rfl

theorem pickStep_eq : pickStep = foldStepBy (fun h : SurfaceHit => h.distance) := by
  funext b h
  cases b with
  | none => rfl
  | some b0 => rfl

theorem Vec3.lengthSq_normalizeOrZero (a : Vec3) (h : a.lengthSq ≠ 0) :
    a.normalizeOrZero.lengthSq = 1 := by
  unfold Vec3.normalizeOrZero
  rw [if_neg h, Vec3.lengthSq_smul]
  have hsq : a.length ^ 2 = a.lengthSq := Real.sq_sqrt (Vec3.lengthSq_nonneg a)
  rw [one_div, inv_pow, hsq, inv_mul_cancel₀ h]

theorem rayTriangleIntersect_spec (rayO rayD v0 v1 v2 : Vec3) (t : ℝ) :
    rayTriangleIntersect rayO rayD v0 v1 v2 = some t ↔
      (1e-6 ≤ |(v1.sub v0).dot (rayD.cross (v2.sub v0))| ∧
       0 ≤ (rayO.sub v0).dot (rayD.cross (v2.sub v0)) /
         (v1.sub v0).dot (rayD.cross (v2.sub v0)) ∧
       (rayO.sub v0).dot (rayD.cross (v2.sub v0)) /
         (v1.sub v0).dot (rayD.cross (v2.sub v0)) ≤ 1 ∧
       0 ≤ rayD.dot ((rayO.sub v0).cross (v1.sub v0)) /
         (v1.sub v0).dot (rayD.cross (v2.sub v0)) ∧
       (rayO.sub v0).dot (rayD.cross (v2.sub v0)) /
           (v1.sub v0).dot (rayD.cross (v2.sub v0)) +
         rayD.dot ((rayO.sub v0).cross (v1.sub v0)) /
           (v1.sub v0).dot (rayD.cross (v2.sub v0)) ≤ 1 ∧
       1e-6 < t ∧
       t = (v2.sub v0).dot ((rayO.sub v0).cross (v1.sub v0)) /
         (v1.sub v0).dot (rayD.cross (v2.sub v0))) := by
  simp only [rayTriangleIntersect, mul_one_div]
  split_ifs with h1 h2 h3 h4
  · exact iff_of_false (by simp) (by intro hc; linarith [hc.1])
  · refine iff_of_false (by simp) ?_
    intro hc
    rcases h2 with h2 | h2
    · linarith [hc.2.1]
    · linarith [hc.2.2.1]
  · refine iff_of_false (by simp) ?_
    intro hc
    rcases h3 with h3 | h3
    · linarith [hc.2.2.2.1]
    · linarith [hc.2.2.2.2.1]
  · constructor
    · intro hres
      rw [Option.some.injEq] at hres
      subst hres
      push_neg at h2 h3
      exact ⟨not_lt.1 h1, h2.1, h2.2, h3.1, h3.2, h4, rfl⟩
    · intro hc
      rw [hc.2.2.2.2.2.2]
  · refine iff_of_false (by simp) ?_
    intro hc
    rw [hc.2.2.2.2.2.2] at hc
    exact h4 hc.2.2.2.2.2.1

theorem pickSurface_eq_foldMin (s : GeomScene) (rayOrigin rayDir : Vec3)
    (h : ¬ rayDir.normalizeOrZero.lengthSq < 1e-12) :
    s.pickSurface rayOrigin rayDir =
      (allSurfaceHits s rayOrigin rayDir.normalizeOrZero).foldl
        (foldStepBy (fun hh : SurfaceHit => hh.distance)) none := by
  simp only [GeomScene.pickSurface, allSurfaceHits]
  rw [if_neg h]
  rw [pickStep_eq]
  rw [List.foldl_flatten, List.foldl_map]
  refine foldl_fun_congr _ _ ?_ s.model.objects.enum none
  intro best io
  cases hm : s.localMeshes.get? io.1 with
  | none =>
    simp only [hm]
    rfl
  | some mesh =>
    simp only [hm]
    rw [← foldl_step_filterMap]
    refine foldl_fun_congr _ _ ?_ (triChunks mesh.indices) best
    intro b tri
    cases hc : triCandidate rayOrigin rayDir.normalizeOrZero
        (transformMat io.2.transform) io.2.transform.rotation.normalize
        mesh io.2.id tri with
    | none => simp only [hc]
    | some hh => simp only [hc]

/-- Claim C7: `pick_surface` tests the ray against every world-transformed
triangle of every object's cached local mesh.  The per-triangle test
accepts exactly when the determinant has magnitude at least `1e-6`,
barycentric `u` lies in `[0,1]`, `v ≥ 0`, `u + v ≤ 1`, and the hit
parameter exceeds `1e-6` (so it rejects near-parallel rays, out-of-range
barycentrics, and hits at or behind the origin).  Across all objects and
triangles `pick_surface` returns a candidate hit (carrying the object id,
world-space point, re-rotated normal, and distance) of minimal distance,
and `None` exactly when no triangle is hit. -/
theorem claim_C7 (s : GeomScene) (rayOrigin rayDir : Vec3) :
    (∀ (o d v0 v1 v2 : Vec3) (t : ℝ),
      rayTriangleIntersect o d v0 v1 v2 = some t ↔
        (1e-6 ≤ |(v1.sub v0).dot (d.cross (v2.sub v0))| ∧
         0 ≤ (o.sub v0).dot (d.cross (v2.sub v0)) /
           (v1.sub v0).dot (d.cross (v2.sub v0)) ∧
         (o.sub v0).dot (d.cross (v2.sub v0)) /
           (v1.sub v0).dot (d.cross (v2.sub v0)) ≤ 1 ∧
         0 ≤ d.dot ((o.sub v0).cross (v1.sub v0)) /
           (v1.sub v0).dot (d.cross (v2.sub v0)) ∧
         (o.sub v0).dot (d.cross (v2.sub v0)) /
             (v1.sub v0).dot (d.cross (v2.sub v0)) +
           d.dot ((o.sub v0).cross (v1.sub v0)) /
             (v1.sub v0).dot (d.cross (v2.sub v0)) ≤ 1 ∧
         1e-6 < t ∧
         t = (v2.sub v0).dot ((o.sub v0).cross (v1.sub v0)) /
           (v1.sub v0).dot (d.cross (v2.sub v0)))) ∧
    (rayDir.lengthSq ≠ 0 →
      ((s.pickSurface rayOrigin rayDir = none ↔
        allSurfaceHits s rayOrigin rayDir.normalizeOrZero = []) ∧
       (∀ h, s.pickSurface rayOrigin rayDir = some h →
         h ∈ allSurfaceHits s rayOrigin rayDir.normalizeOrZero ∧
         ∀ h2 ∈ allSurfaceHits s rayOrigin rayDir.normalizeOrZero,
           h.distance ≤ h2.distance))) := by
  constructor
  · intro o d v0 v1 v2 t
    exact rayTriangleIntersect_spec o d v0 v1 v2 t
  · intro hnz
    have hcond : ¬ rayDir.normalizeOrZero.lengthSq < 1e-12 := by
      rw [Vec3.lengthSq_normalizeOrZero rayDir hnz]
      norm_num
    constructor
    · rw [pickSurface_eq_foldMin s rayOrigin rayDir hcond, foldMinBy_none]
      simp
    · intro h hres
      rw [pickSurface_eq_foldMin s rayOrigin rayDir hcond] at hres
      obtain ⟨hmem, hmin, -⟩ :=
        foldMinBy_some (fun hh : SurfaceHit => hh.distance) _ _ _ hres
      rcases hmem with hmem | habs
      · exact ⟨hmem, hmin⟩
      · exact absurd habs (by simp)

theorem claim_C7_witness :
    (⟨0, 0, -1⟩ : Vec3).lengthSq ≠ 0 ∧
    rayTriangleIntersect ⟨1 / 4, 1 / 4, 1⟩ ⟨0, 0, -1⟩ ⟨0, 0, 0⟩ ⟨1, 0, 0⟩
      ⟨0, 1, 0⟩ = some 1 ∧
    ((sceneTri.pickSurface ⟨1 / 4, 1 / 4, 1⟩ ⟨0, 0, -1⟩ = none ↔
      allSurfaceHits sceneTri ⟨1 / 4, 1 / 4, 1⟩
        (⟨0, 0, -1⟩ : Vec3).normalizeOrZero = []) ∧
     (∀ h, sceneTri.pickSurface ⟨1 / 4, 1 / 4, 1⟩ ⟨0, 0, -1⟩ = some h →
       h ∈ allSurfaceHits sceneTri ⟨1 / 4, 1 / 4, 1⟩
         (⟨0, 0, -1⟩ : Vec3).normalizeOrZero ∧
       ∀ h2 ∈ allSurfaceHits sceneTri ⟨1 / 4, 1 / 4, 1⟩
         (⟨0, 0, -1⟩ : Vec3).normalizeOrZero,
         h.distance ≤ h2.distance)) := by
  have hnz : (⟨0, 0, -1⟩ : Vec3).lengthSq ≠ 0 := by
    norm_num [Vec3.lengthSq, Vec3.dot]
  have hc7 := claim_C7 sceneTri ⟨1 / 4, 1 / 4, 1⟩ ⟨0, 0, -1⟩
  refine ⟨hnz, ?_, hc7.2 hnz⟩
  refine (hc7.1 ⟨1 / 4, 1 / 4, 1⟩ ⟨0, 0, -1⟩ ⟨0, 0, 0⟩ ⟨1, 0, 0⟩ ⟨0, 1, 0⟩ 1).2 ?_
  norm_num [Vec3.sub, Vec3.cross, Vec3.dot]

theorem appendTransformed_indices_length (a b : TriMesh) (m : TRMat) :
    (a.appendTransformed b m).indices.length =
      a.indices.length + b.indices.length := by
  simp [TriMesh.appendTransformed]

theorem combine_fold_general (ml : List TriMesh) :
    ∀ (objs : List ModelObject) (k : ℕ) (acc : TriMesh),
      ((objs.enumFrom k).foldl (fun combined io =>
        match ml.get? io.1 with
        | some mloc =>
          combined.appendTransformed mloc (transformMat io.2.transform)
        | none => combined) acc).indices.length =
      acc.indices.length +
        (((ml.drop k).take objs.length).map
          (fun m => m.indices.length)).sum
  | [], k, acc => by simp
  | o :: rest, k, acc => by
    rw [List.enumFrom_cons, List.foldl_cons]
    cases hm : ml.get? k with
    | some m =>
      have hk : k < ml.length := by
        rcases List.get?_eq_some.1 hm with ⟨h, -⟩
        exact h
      have hgm : ml[k] = m := by
        rw [List.get?_eq_getElem?, List.getElem?_eq_getElem hk] at hm
        exact Option.some.inj hm
      have hdrop : ml.drop k = m :: ml.drop (k + 1) := by
        rw [List.drop_eq_getElem_cons hk, hgm]
      simp only [hm]
      rw [combine_fold_general ml rest (k + 1)
        (acc.appendTransformed m (transformMat o.transform))]
      rw [appendTransformed_indices_length, hdrop]
      simp only [List.length_cons, List.take_succ_cons, List.map_cons,
        List.sum_cons]
      ring
    | none =>
      have hk : ml.length ≤ k := List.get?_eq_none.1 hm
      simp only [hm]
      rw [combine_fold_general ml rest (k + 1) acc]
      rw [List.drop_eq_nil_of_le hk,
        List.drop_eq_nil_of_le (le_trans hk (Nat.le_succ k))]
      simp

theorem combineAll_indices_length (s : GeomScene)
    (hlen : s.localMeshes.length = s.model.objects.length) :
    s.combineAll.indices.length =
      (s.localMeshes.map (fun m => m.indices.length)).sum := by
  unfold GeomScene.combineAll
  rw [show s.model.objects.enum = s.model.objects.enumFrom 0 from rfl]
  rw [combine_fold_general s.localMeshes s.model.objects 0 TriMesh.empty]
  rw [List.drop_zero, ← hlen, List.take_length]
  simp [TriMesh.empty]

theorem setFirstTransform_length (id : ℕ) (t : Transform) :
    ∀ l l2, setFirstTransform id t l = some l2 → l2.length = l.length
  | [], l2, h => absurd h (by simp [setFirstTransform])
  | o :: rest, l2, h => by
    unfold setFirstTransform at h
    by_cases ho : o.id = id
    · rw [if_pos ho, Option.some.injEq] at h
      subst h
      simp
    · rw [if_neg ho] at h
      cases hr : setFirstTransform id t rest with
      | none =>
        rw [hr] at h
        exact absurd h (by simp)
      | some l3 =>
        rw [hr, Option.map_some', Option.some.injEq] at h
        subst h
        simp [setFirstTransform_length id t rest l3 hr]

theorem foldl_cache_none :
    ∀ (ops : List SceneOp) (s : GeomScene), s.meshCache = none →
      (ops.foldl SceneOp.apply s).meshCache = none
  | [], _, h => h
  | op :: rest, s, h => by
    rw [List.foldl_cons]
    apply foldl_cache_none rest
    cases op with
    | addBox w hh d m => rfl
    | addCylinder r hh m => rfl
    | setT id t =>
      simp only [SceneOp.apply]
      unfold GeomScene.setObjectTransform
      cases hst : s.model.setTransform id t with
      | mk b m2 =>
        cases b
        · exact h
        · rfl

theorem applyStep_invariant (s : GeomScene) (op : SceneOp)
    (hb : ∀ w h d m, op = SceneOp.addBox w h d m → 3 ∣ m.indices.length)
    (hc : ∀ r h m, op = SceneOp.addCylinder r h m → 3 ∣ m.indices.length)
    (h1 : s.localMeshes.length = s.model.objects.length)
    (h2 : s.solids.length = s.model.objects.length)
    (h3 : ∀ mesh ∈ s.localMeshes, 3 ∣ mesh.indices.length) :
    ((SceneOp.apply s op).localMeshes.length =
      (SceneOp.apply s op).model.objects.length ∧
     (SceneOp.apply s op).solids.length =
      (SceneOp.apply s op).model.objects.length ∧
     ∀ mesh ∈ (SceneOp.apply s op).localMeshes, 3 ∣ mesh.indices.length) := by
  cases op with
  | addBox w h d m =>
    refine ⟨?_, ?_, ?_⟩
    · simp only [SceneOp.apply, GeomScene.addObject, Model.addObject]
      simp [h1]
    · simp only [SceneOp.apply, GeomScene.addObject, Model.addObject]
      simp [h2]
    · simp only [SceneOp.apply, GeomScene.addObject, Model.addObject]
      intro mesh hmesh
      rcases List.mem_append.1 hmesh with hmem | hmem
      · exact h3 mesh hmem
      · rw [List.mem_singleton] at hmem
        subst hmem
        exact hb w h d mesh rfl
  | addCylinder r hh m =>
    refine ⟨?_, ?_, ?_⟩
    · simp only [SceneOp.apply, GeomScene.addObject, Model.addObject]
      simp [h1]
    · simp only [SceneOp.apply, GeomScene.addObject, Model.addObject]
      simp [h2]
    · simp only [SceneOp.apply, GeomScene.addObject, Model.addObject]
      intro mesh hmesh
      rcases List.mem_append.1 hmesh with hmem | hmem
      · exact h3 mesh hmem
      · rw [List.mem_singleton] at hmem
        subst hmem
        exact hc r hh mesh rfl
  | setT id t =>
    simp only [SceneOp.apply]
    unfold GeomScene.setObjectTransform Model.setTransform
    cases hst : setFirstTransform id t s.model.objects with
    | none => exact ⟨h1, h2, h3⟩
    | some l2 =>
      have hlen2 := setFirstTransform_length id t s.model.objects l2 hst
      exact ⟨by rw [h1, ← hlen2], by rw [h2, ← hlen2], h3⟩

theorem foldl_invariant :
    ∀ (ops : List SceneOp) (s : GeomScene),
      (∀ w h d m, SceneOp.addBox w h d m ∈ ops → 3 ∣ m.indices.length) →
      (∀ r h m, SceneOp.addCylinder r h m ∈ ops → 3 ∣ m.indices.length) →
      s.localMeshes.length = s.model.objects.length →
      s.solids.length = s.model.objects.length →
      (∀ mesh ∈ s.localMeshes, 3 ∣ mesh.indices.length) →
      ((ops.foldl SceneOp.apply s).localMeshes.length =
        (ops.foldl SceneOp.apply s).model.objects.length ∧
       (ops.foldl SceneOp.apply s).solids.length =
        (ops.foldl SceneOp.apply s).model.objects.length ∧
       ∀ mesh ∈ (ops.foldl SceneOp.apply s).localMeshes,
         3 ∣ mesh.indices.length)
  | [], _, _, _, h1, h2, h3 => ⟨h1, h2, h3⟩
  | op :: rest, s, hb, hc, h1, h2, h3 => by
    rw [List.foldl_cons]
    obtain ⟨g1, g2, g3⟩ := applyStep_invariant s op
      (fun w h d m he => hb w h d m (he ▸ List.mem_cons_self _ _))
      (fun r h m he => hc r h m (he ▸ List.mem_cons_self _ _)) h1 h2 h3
    exact foldl_invariant rest _
      (fun w h d m hm => hb w h d m (List.mem_cons_of_mem _ hm))
      (fun r h m hm => hc r h m (List.mem_cons_of_mem _ hm)) g1 g2 g3

theorem sum_indices_div3 :
    ∀ l : List TriMesh, (∀ m ∈ l, 3 ∣ m.indices.length) →
      (l.map (fun m => m.indices.length)).sum / 3 =
      (l.map (fun m => m.indices.length / 3)).sum
  | [], _ => rfl
  | m :: rest, h => by
    simp only [List.map_cons, List.sum_cons]
    rw [Nat.add_div_of_dvd_right (h m (List.mem_cons_self _ _))]
    rw [sum_indices_div3 rest (fun m2 hm2 => h m2 (List.mem_cons_of_mem _ hm2))]

theorem meshR_idem (s : GeomScene) :
    s.meshR.2.meshR = (s.meshR.1, s.meshR.2) := by
  by_cases hs : s.solids.isEmpty = true
  · have h1 : s.meshR = (Except.error GeomError.emptyScene, s) := by
      unfold GeomScene.meshR
      rw [if_pos hs]
    rw [h1]
    exact h1
  · cases hm : s.meshCache with
    | some m =>
      have h1 : s.meshR = (Except.ok m, s) := by
        unfold GeomScene.meshR
        rw [if_neg hs, hm]
      rw [h1]
      exact h1
    | none =>
      have h1 : s.meshR = (Except.ok s.combineAll,
          { s with meshCache := some s.combineAll }) := by
        unfold GeomScene.meshR
        rw [if_neg hs, hm]
      rw [h1]
      unfold GeomScene.meshR
      dsimp only
      rw [if_neg hs]

/-- Claim C1: for every sequence of add and set-transform operations (the
tessellated meshes supplied by the external kernel, all with
triangle-aligned index lists), the combined-mesh read fails with
`EmptyScene` exactly when the scene contains zero objects; otherwise it
returns a mesh whose triangle count (indices length divided by 3) equals
the sum over all objects of the cached local-mesh triangle counts (no
duplication, no loss; indices are rebased by the running vertex offset
inside `append_transformed`), and a second read with no intervening
mutation returns the same mesh and leaves the scene (hence the cache)
unchanged. -/
theorem claim_C1 (ops : List SceneOp)
    (hbox : ∀ w h d m, SceneOp.addBox w h d m ∈ ops → 3 ∣ m.indices.length)
    (hcyl : ∀ r h m, SceneOp.addCylinder r h m ∈ ops → 3 ∣ m.indices.length) :
    ((applyOps ops).meshR.1 = Except.error GeomError.emptyScene ↔
      (applyOps ops).model.objects = []) ∧
    (∀ m, (applyOps ops).meshR.1 = Except.ok m →
      m.indices.length / 3 =
        ((applyOps ops).localMeshes.map
          (fun mm => mm.indices.length / 3)).sum) ∧
    (applyOps ops).meshR.2.meshR =
      ((applyOps ops).meshR.1, (applyOps ops).meshR.2) := by
  obtain ⟨h1, h2, h3⟩ := foldl_invariant ops GeomScene.new hbox hcyl rfl rfl
    (by intro mesh hm; exact absurd hm (by simp [GeomScene.new]))
  have h1 : (applyOps ops).localMeshes.length =
      (applyOps ops).model.objects.length := h1
  have h2 : (applyOps ops).solids.length =
      (applyOps ops).model.objects.length := h2
  have h3 : ∀ mesh ∈ (applyOps ops).localMeshes, 3 ∣ mesh.indices.length := h3
  have hcache : (applyOps ops).meshCache = none :=
    foldl_cache_none ops GeomScene.new rfl
  refine ⟨?_, ?_, meshR_idem _⟩
  · unfold GeomScene.meshR
    by_cases hs : (applyOps ops).solids.isEmpty = true
    · rw [if_pos hs]
      refine iff_of_true rfl ?_
      have hnil : (applyOps ops).solids = [] := List.isEmpty_iff.1 hs
      apply List.length_eq_zero.1
      rw [← h2, hnil]
      rfl
    · rw [if_neg hs, hcache]
      refine iff_of_false (by simp) ?_
      intro hobj
      apply hs
      rw [List.isEmpty_iff, ← List.length_eq_zero, h2, hobj]
      rfl
  · intro m hm
    unfold GeomScene.meshR at hm
    by_cases hs : (applyOps ops).solids.isEmpty = true
    · rw [if_pos hs] at hm
      exact absurd hm (by simp)
    · rw [if_neg hs, hcache] at hm
      simp only [Except.ok.injEq] at hm
      rw [← hm]
      rw [combineAll_indices_length _ h1]
      exact sum_indices_div3 _ h3

theorem claim_C1_witness :
    ((∀ w h d m, SceneOp.addBox w h d m ∈
        [SceneOp.addBox 1 1 1 meshTriFix,
         SceneOp.setT 0 ⟨⟨0, 0, -5⟩, Quat.one⟩] → 3 ∣ m.indices.length) ∧
     (∀ r h m, SceneOp.addCylinder r h m ∈
        [SceneOp.addBox 1 1 1 meshTriFix,
         SceneOp.setT 0 ⟨⟨0, 0, -5⟩, Quat.one⟩] → 3 ∣ m.indices.length)) ∧
    (((applyOps [SceneOp.addBox 1 1 1 meshTriFix,
        SceneOp.setT 0 ⟨⟨0, 0, -5⟩, Quat.one⟩]).meshR.1 =
          Except.error GeomError.emptyScene ↔
      (applyOps [SceneOp.addBox 1 1 1 meshTriFix,
        SceneOp.setT 0 ⟨⟨0, 0, -5⟩, Quat.one⟩]).model.objects = []) ∧
     (∀ m, (applyOps [SceneOp.addBox 1 1 1 meshTriFix,
        SceneOp.setT 0 ⟨⟨0, 0, -5⟩, Quat.one⟩]).meshR.1 = Except.ok m →
       m.indices.length / 3 =
         ((applyOps [SceneOp.addBox 1 1 1 meshTriFix,
           SceneOp.setT 0 ⟨⟨0, 0, -5⟩, Quat.one⟩]).localMeshes.map
             (fun mm => mm.indices.length / 3)).sum) ∧
     (applyOps [SceneOp.addBox 1 1 1 meshTriFix,
       SceneOp.setT 0 ⟨⟨0, 0, -5⟩, Quat.one⟩]).meshR.2.meshR =
       ((applyOps [SceneOp.addBox 1 1 1 meshTriFix,
          SceneOp.setT 0 ⟨⟨0, 0, -5⟩, Quat.one⟩]).meshR.1,
        (applyOps [SceneOp.addBox 1 1 1 meshTriFix,
          SceneOp.setT 0 ⟨⟨0, 0, -5⟩, Quat.one⟩]).meshR.2)) := by
  have hbox : ∀ w h d m, SceneOp.addBox w h d m ∈
      [SceneOp.addBox 1 1 1 meshTriFix,
       SceneOp.setT 0 ⟨⟨0, 0, -5⟩, Quat.one⟩] → 3 ∣ m.indices.length := by
    intro w h d m hm
    rcases List.mem_cons.1 hm with he | hm2
    · obtain ⟨-, -, -, hme⟩ := SceneOp.addBox.inj he.symm
      rw [← hme]
      simp [meshTriFix]
    · rw [List.mem_singleton] at hm2
      exact absurd hm2 (by simp)
  have hcyl : ∀ r h m, SceneOp.addCylinder r h m ∈
      [SceneOp.addBox 1 1 1 meshTriFix,
       SceneOp.setT 0 ⟨⟨0, 0, -5⟩, Quat.one⟩] → 3 ∣ m.indices.length := by
    intro r h m hm
    rcases List.mem_cons.1 hm with he | hm2
    · exact absurd he (by simp)
    · rw [List.mem_singleton] at hm2
      exact absurd hm2 (by simp)
  exact ⟨⟨hbox, hcyl⟩, claim_C1 _ hbox hcyl⟩

theorem Quat.mul_one_q (q : Quat) : q.mul Quat.one = q := by
  cases q with
  | mk qx qy qz qw =>
    unfold Quat.mul Quat.one
    simp only [Quat.mk.injEq]
    exact ⟨by ring, by ring, by ring, by ring⟩

theorem Quat.normalize_of_unit_q (q : Quat) (h : q.lengthSq = 1) :
    q.normalize = q := by
  unfold Quat.normalize Quat.length
  rw [h, Real.sqrt_one]
  cases q with
  | mk qx qy qz qw =>
    unfold Quat.smul
    simp only [Quat.mk.injEq]
    exact ⟨by ring, by ring, by ring, by ring⟩

theorem Vec3.normalize_of_unit (v : Vec3) (h : v.lengthSq = 1) :
    v.normalize = v := by
  unfold Vec3.normalize Vec3.length
  rw [h, Real.sqrt_one]
  cases v with
  | mk vx vy vz =>
    unfold Vec3.smul
    simp only [Vec3.mk.injEq]
    exact ⟨by ring, by ring, by ring⟩

theorem Vec3.neg_dot (a b : Vec3) : (a.neg).dot b = -(a.dot b) := by
  unfold Vec3.neg Vec3.dot
  ring

/-- Claim C9 (amended): orbiting with a degenerate (near-zero rotation
axis) motion — including identical screen points — leaves the camera
unchanged; every non-degenerate orbit update re-orthogonalizes the
orientation through `constrain_up`; the re-orthogonalized frame's up
vector never points below the horizon (non-negative dot product with
world up), and — except in the near-vertical fallback where world-up and
the view direction are near-collinear (squared cross-product length
below `1e-6`), where roll is NOT removed (see the counterexample) — the
up vector has no roll component relative to world up (the frame's
right vector `up × back` is horizontal). -/
theorem claim_C9 :
    (∀ (cam : Camera) (prevX prevY currX currY : ℝ) (width height : ℕ),
      ((arcballVector currX currY ((max width 1 : ℕ) : ℝ)
          ((max height 1 : ℕ) : ℝ)).cross
        (arcballVector prevX prevY ((max width 1 : ℕ) : ℝ)
          ((max height 1 : ℕ) : ℝ))).length < 1e-5 →
      cam.orbitArcball prevX prevY currX currY width height = cam) ∧
    (∀ (cam : Camera) (prevX prevY currX currY : ℝ) (width height : ℕ),
      ¬ ((arcballVector currX currY ((max width 1 : ℕ) : ℝ)
          ((max height 1 : ℕ) : ℝ)).cross
        (arcballVector prevX prevY ((max width 1 : ℕ) : ℝ)
          ((max height 1 : ℕ) : ℝ))).length < 1e-5 →
      ∃ rot, cam.orbitArcball prevX prevY currX currY width height =
        { cam with rotation := constrainUp rot }) ∧
    (∀ rot : Quat, 0 ≤ (constrainBasis rot).2.1.dot ⟨0, 1, 0⟩) ∧
    (∀ rot : Quat,
      ¬ ((⟨0, 1, 0⟩ : Vec3).cross
          ((rot.mulVec3 ⟨0, 0, 1⟩).normalize)).lengthSq < 1e-6 →
      ((constrainBasis rot).2.1.cross (constrainBasis rot).2.2).dot
        ⟨0, 1, 0⟩ = 0) := by
  refine ⟨?_, ?_, ?_, ?_⟩
  · intro cam prevX prevY currX currY width height h
    simp only [Camera.orbitArcball]
    rw [if_pos h]
  · intro cam prevX prevY currX currY width height h
    simp only [Camera.orbitArcball]
    rw [if_neg h]
    exact ⟨_, rfl⟩
  · intro rot
    simp only [constrainBasis]
    split_ifs with h1 h2 h3
    · rw [Vec3.neg_dot]
      linarith
    · exact not_lt.1 h2
    · rw [Vec3.neg_dot]
      linarith
    · exact not_lt.1 h3
  · intro rot h
    simp only [constrainBasis]
    rw [if_neg h]
    split_ifs with hflip
    · simp only [Vec3.normalize, Vec3.smul, Vec3.cross, Vec3.dot, Vec3.neg,
        Vec3.length, Vec3.lengthSq]
      ring
    · simp only [Vec3.normalize, Vec3.smul, Vec3.cross, Vec3.dot, Vec3.neg,
        Vec3.length, Vec3.lengthSq]
      ring

theorem mulVec3_halfTurnZ (a b c : ℝ) (hc : c * c = 1 / 2)
    (hab : a * a + b * b = 1) :
    Quat.mulVec3 ⟨a * c, b * c, 0, c⟩ ⟨0, 0, 1⟩ = ⟨b, -a, 0⟩ := by
  unfold Quat.mulVec3 Quat.xyz Vec3.dot Vec3.cross Vec3.smul Vec3.add
  simp only [Vec3.mk.injEq]
  refine ⟨?_, ?_, ?_⟩
  · linear_combination (2 * b) * hc
  · linear_combination (-2 * a) * hc
  · linear_combination (-(c * c)) * hab

theorem mulVec3_halfTurnX (a b c : ℝ) (hc : c * c = 1 / 2)
    (hab : a * a + b * b = 1) :
    Quat.mulVec3 ⟨a * c, b * c, 0, c⟩ ⟨1, 0, 0⟩ = ⟨a * a, a * b, -b⟩ := by
  unfold Quat.mulVec3 Quat.xyz Vec3.dot Vec3.cross Vec3.smul Vec3.add
  simp only [Vec3.mk.injEq]
  refine ⟨?_, ?_, ?_⟩
  · linear_combination (-(c * c)) * hab + (2 * a * a) * hc
  · linear_combination (2 * a * b) * hc
  · linear_combination (-2 * b) * hc

theorem sqrtTwoHalf_sq : Real.sqrt 2 / 2 * (Real.sqrt 2 / 2) = 1 / 2 := by
  rw [div_mul_div_comm, Real.mul_self_sqrt (by norm_num : (0 : ℝ) ≤ 2)]
  norm_num

theorem arcball_center : arcballVector 2 2 4 4 = (⟨0, 0, 1⟩ : Vec3) := by
  unfold arcballVector
  norm_num

theorem arcball_rightMid : arcballVector 4 2 4 4 = (⟨1, 0, 0⟩ : Vec3) := by
  unfold arcballVector
  norm_num [Real.sqrt_zero]

theorem claim_C9_witness :
    (((arcballVector 2 2 ((max 4 1 : ℕ) : ℝ) ((max 4 1 : ℕ) : ℝ)).cross
        (arcballVector 2 2 ((max 4 1 : ℕ) : ℝ) ((max 4 1 : ℕ) : ℝ))).length <
          1e-5 ∧
     camFix.orbitArcball 2 2 2 2 4 4 = camFix) ∧
    (¬ ((arcballVector 4 2 ((max 4 1 : ℕ) : ℝ) ((max 4 1 : ℕ) : ℝ)).cross
        (arcballVector 2 2 ((max 4 1 : ℕ) : ℝ) ((max 4 1 : ℕ) : ℝ))).length <
          1e-5 ∧
     ∃ rot, camFix.orbitArcball 2 2 4 2 4 4 =
       { camFix with rotation := constrainUp rot }) ∧
    0 ≤ (constrainBasis Quat.one).2.1.dot ⟨0, 1, 0⟩ ∧
    (¬ ((⟨0, 1, 0⟩ : Vec3).cross
        (((⟨0, -(Real.sqrt 2 / 2), 0, Real.sqrt 2 / 2⟩ : Quat).mulVec3
          ⟨0, 0, 1⟩).normalize)).lengthSq < 1e-6 ∧
     ((constrainBasis ⟨0, -(Real.sqrt 2 / 2), 0, Real.sqrt 2 / 2⟩).2.1.cross
        (constrainBasis ⟨0, -(Real.sqrt 2 / 2), 0,
          Real.sqrt 2 / 2⟩).2.2).dot ⟨0, 1, 0⟩ = 0) := by
  have hcast : ((max 4 1 : ℕ) : ℝ) = 4 := by norm_num
  have hdeg : ((arcballVector 2 2 ((max 4 1 : ℕ) : ℝ)
      ((max 4 1 : ℕ) : ℝ)).cross
      (arcballVector 2 2 ((max 4 1 : ℕ) : ℝ) ((max 4 1 : ℕ) : ℝ))).length <
        1e-5 := by
    rw [hcast, arcball_center]
    rw [show (⟨0, 0, 1⟩ : Vec3).cross ⟨0, 0, 1⟩ = ⟨0, 0, 0⟩ from by
      norm_num [Vec3.cross]]
    unfold Vec3.length Vec3.lengthSq Vec3.dot
    norm_num [Real.sqrt_zero]
  have hnon : ¬ ((arcballVector 4 2 ((max 4 1 : ℕ) : ℝ)
      ((max 4 1 : ℕ) : ℝ)).cross
      (arcballVector 2 2 ((max 4 1 : ℕ) : ℝ) ((max 4 1 : ℕ) : ℝ))).length <
        1e-5 := by
    rw [hcast, arcball_rightMid, arcball_center]
    rw [show (⟨1, 0, 0⟩ : Vec3).cross ⟨0, 0, 1⟩ = ⟨0, -1, 0⟩ from by
      norm_num [Vec3.cross]]
    unfold Vec3.length Vec3.lengthSq Vec3.dot
    rw [show (0 : ℝ) * 0 + -1 * -1 + 0 * 0 = 1 by norm_num, Real.sqrt_one]
    norm_num
  have hback : (⟨0, -(Real.sqrt 2 / 2), 0, Real.sqrt 2 / 2⟩ : Quat).mulVec3
      ⟨0, 0, 1⟩ = ⟨-1, 0, 0⟩ := by
    have h2 := mulVec3_halfTurnZ 0 (-1) (Real.sqrt 2 / 2) sqrtTwoHalf_sq
      (by norm_num)
    rw [show (⟨0, -(Real.sqrt 2 / 2), 0, Real.sqrt 2 / 2⟩ : Quat) =
        ⟨0 * (Real.sqrt 2 / 2), (-1) * (Real.sqrt 2 / 2), 0,
          Real.sqrt 2 / 2⟩ from by
      simp only [Quat.mk.injEq]
      refine ⟨by ring, by ring, by ring, by ring⟩]
    rw [h2]
    simp only [Vec3.mk.injEq]
    norm_num
  have hnf : ¬ ((⟨0, 1, 0⟩ : Vec3).cross
      (((⟨0, -(Real.sqrt 2 / 2), 0, Real.sqrt 2 / 2⟩ : Quat).mulVec3
        ⟨0, 0, 1⟩).normalize)).lengthSq < 1e-6 := by
    rw [hback, Vec3.normalize_of_unit _ (by norm_num [Vec3.lengthSq, Vec3.dot])]
    rw [show (⟨0, 1, 0⟩ : Vec3).cross ⟨-1, 0, 0⟩ = ⟨0, 0, 1⟩ from by
      norm_num [Vec3.cross]]
    norm_num [Vec3.lengthSq, Vec3.dot]
  exact ⟨⟨hdeg, claim_C9.1 camFix 2 2 2 2 4 4 hdeg⟩,
    ⟨hnon, claim_C9.2.1 camFix 2 2 4 2 4 4 hnon⟩,
    claim_C9.2.2.1 Quat.one,
    ⟨hnf, claim_C9.2.2.2 _ hnf⟩⟩

theorem axC9_sq_add : axC9 * axC9 + ayC9 * ayC9 = 1 := by
  unfold axC9 ayC9
  norm_num

theorem qC9_lengthSq : qC9.lengthSq = 1 := by
  unfold qC9 Quat.lengthSq
  linear_combination
    (axC9 * axC9 + ayC9 * ayC9 + 1) * sqrtTwoHalf_sq + (1 / 2) * axC9_sq_add

theorem arcball_centerC9 :
    arcballVector 16000001 16000001 32000002 32000002 = (⟨0, 0, 1⟩ : Vec3) := by
  unfold arcballVector
  norm_num

theorem arcball_rimC9 :
    arcballVector 15992001 2 32000002 32000002 = ⟨-ayC9, axC9, 0⟩ := by
  simp only [arcballVector]
  have hnx : ((2 : ℝ) * 15992001 - 32000002) / 32000002 = -ayC9 := by
    unfold ayC9
    norm_num
  have hny : ((32000002 : ℝ) - 2 * 2) / 32000002 = axC9 := by
    unfold axC9
    norm_num
  rw [hnx, hny]
  have hlen : -ayC9 * -ayC9 + axC9 * axC9 = 1 := by
    linear_combination axC9_sq_add
  simp only [hlen]
  rw [if_pos le_rfl]
  norm_num

theorem crossC9 :
    (⟨-ayC9, axC9, 0⟩ : Vec3).cross ⟨0, 0, 1⟩ = ⟨axC9, ayC9, 0⟩ := by
  unfold Vec3.cross
  simp only [Vec3.mk.injEq]
  refine ⟨by ring, by ring, by ring⟩

theorem axisLenC9 : (⟨axC9, ayC9, 0⟩ : Vec3).length = 1 := by
  unfold Vec3.length Vec3.lengthSq Vec3.dot
  rw [show axC9 * axC9 + ayC9 * ayC9 + 0 * 0 = 1 by
    linear_combination axC9_sq_add]
  exact Real.sqrt_one

theorem dotC9 : (⟨0, 0, 1⟩ : Vec3).dot ⟨-ayC9, axC9, 0⟩ = 0 := by
  unfold Vec3.dot
  ring

theorem fromAxisC9 :
    Quat.fromAxisAngle ⟨axC9, ayC9, 0⟩ (Real.pi / 2) = qC9 := by
  unfold Quat.fromAxisAngle qC9
  rw [show Real.pi / 2 / 2 = Real.pi / 4 by ring]
  rw [Real.sin_pi_div_four, Real.cos_pi_div_four]
  simp only [Quat.mk.injEq]
  refine ⟨trivial, trivial, by ring, trivial⟩

theorem orbC9 :
    Camera.orbitArcball camFix 16000001 16000001 15992001 2 32000002
        32000002 =
      { camFix with rotation := constrainUp qC9 } := by
  have hcast : ((max 32000002 1 : ℕ) : ℝ) = 32000002 := by norm_num
  simp only [Camera.orbitArcball, hcast, arcball_rimC9, arcball_centerC9,
    crossC9, axisLenC9, dotC9]
  rw [if_neg (by norm_num : ¬ (1 : ℝ) < 1e-5)]
  rw [show min (1 : ℝ) (max (-1) 0) = 0 by norm_num, Real.arccos_zero]
  rw [show Vec3.smul (1 / 1) (⟨axC9, ayC9, 0⟩ : Vec3) = ⟨axC9, ayC9, 0⟩ by
    unfold Vec3.smul
    norm_num]
  rw [fromAxisC9]
  rw [show camFix.rotation = Quat.one from rfl, Quat.mul_one_q,
    Quat.normalize_of_unit_q qC9 qC9_lengthSq]

theorem constrainBasisC9 :
    constrainBasis qC9 =
      (⟨axC9 * axC9, axC9 * ayC9, -ayC9⟩,
       ⟨axC9 * ayC9, ayC9 * ayC9, axC9⟩,
       ⟨ayC9, -axC9, 0⟩) := by
  have hZ := mulVec3_halfTurnZ axC9 ayC9 (Real.sqrt 2 / 2) sqrtTwoHalf_sq
    axC9_sq_add
  have hX := mulVec3_halfTurnX axC9 ayC9 (Real.sqrt 2 / 2) sqrtTwoHalf_sq
    axC9_sq_add
  have hqC9 : qC9 = ⟨axC9 * (Real.sqrt 2 / 2), ayC9 * (Real.sqrt 2 / 2), 0,
      Real.sqrt 2 / 2⟩ := rfl
  simp only [constrainBasis, hqC9, hZ, hX]
  rw [Vec3.normalize_of_unit ⟨ayC9, -axC9, 0⟩ (by
    unfold Vec3.lengthSq Vec3.dot
    linear_combination axC9_sq_add)]
  rw [show (⟨0, 1, 0⟩ : Vec3).cross ⟨ayC9, -axC9, 0⟩ = ⟨0, 0, -ayC9⟩ by
    unfold Vec3.cross
    simp only [Vec3.mk.injEq]
    refine ⟨by ring, by ring, by ring⟩]
  rw [if_pos (by
    unfold Vec3.lengthSq Vec3.dot ayC9
    norm_num : (⟨0, 0, -ayC9⟩ : Vec3).lengthSq < 1e-6)]
  rw [show (⟨axC9 * axC9, axC9 * ayC9, -ayC9⟩ : Vec3) =
      ⟨axC9 * axC9, axC9 * ayC9, -ayC9⟩ from rfl]
  rw [Vec3.normalize_of_unit ⟨axC9 * axC9, axC9 * ayC9, -ayC9⟩ (by
    unfold Vec3.lengthSq Vec3.dot
    linear_combination (axC9 * axC9 + 1) * axC9_sq_add)]
  rw [show (⟨ayC9, -axC9, 0⟩ : Vec3).cross
      ⟨axC9 * axC9, axC9 * ayC9, -ayC9⟩ =
      ⟨axC9 * ayC9, ayC9 * ayC9, axC9⟩ by
    unfold Vec3.cross
    simp only [Vec3.mk.injEq]
    refine ⟨by ring, by ring, by linear_combination axC9 * axC9_sq_add⟩]
  rw [Vec3.normalize_of_unit ⟨axC9 * ayC9, ayC9 * ayC9, axC9⟩ (by
    unfold Vec3.lengthSq Vec3.dot
    linear_combination (ayC9 * ayC9 + 1) * axC9_sq_add)]
  rw [if_neg (by
    unfold Vec3.dot ayC9
    norm_num : ¬ (⟨axC9 * ayC9, ayC9 * ayC9, axC9⟩ : Vec3).dot
      ⟨0, 1, 0⟩ < 0)]

theorem claim_C9_counterexample :
    (¬ ((arcballVector 15992001 2 ((max 32000002 1 : ℕ) : ℝ)
          ((max 32000002 1 : ℕ) : ℝ)).cross
        (arcballVector 16000001 16000001 ((max 32000002 1 : ℕ) : ℝ)
          ((max 32000002 1 : ℕ) : ℝ))).length < 1e-5) ∧
    Camera.orbitArcball camFix 16000001 16000001 15992001 2 32000002
        32000002 =
      { camFix with rotation := constrainUp qC9 } ∧
    ((constrainBasis qC9).2.1.cross (constrainBasis qC9).2.2).dot
      ⟨0, 1, 0⟩ ≠ 0 := by
  have hcast : ((max 32000002 1 : ℕ) : ℝ) = 32000002 := by norm_num
  refine ⟨?_, orbC9, ?_⟩
  · rw [hcast, arcball_rimC9, arcball_centerC9, crossC9, axisLenC9]
    norm_num
  · rw [constrainBasisC9]
    rw [show ((⟨axC9 * ayC9, ayC9 * ayC9, axC9⟩ : Vec3).cross
        ⟨ayC9, -axC9, 0⟩).dot ⟨0, 1, 0⟩ = axC9 * ayC9 by
      unfold Vec3.cross Vec3.dot
      ring]
    unfold axC9 ayC9
    norm_num
